import Mathlib

/-!
Verification of the stand-up notes generator (`main.py`).

The Python source is shallowly embedded below.  Network calls are modelled
by passing the (already JSON-decoded) response payloads as explicit
arguments; `requests` exceptions are modelled as `Except.error` inputs and
Python exceptions raised by the embedded code itself as `Except.error`
results.  Python `datetime` values obtained by parsing Jira timestamp
strings are modelled as an order-preserving numeric encoding of the naive
(offset-stripped) date-time tuple.
-/

namespace StandupNotes

/-! ## Generic character-list helpers (Python `str` operations) -/

/-- Python `needle in haystack` for strings: substring containment. -/
def isSubListOf (p : List Char) : List Char → Bool
  | [] => p.isPrefixOf []
  | c :: rest => p.isPrefixOf (c :: rest) || isSubListOf p rest

/-- Python substring containment on `String`. -/
def containsStr (haystack needle : String) : Bool :=
  isSubListOf needle.toList haystack.toList

/-- Python `haystack.count(needle)`: number of non-overlapping occurrences,
scanning left to right and skipping past each match.  The `skip` counter
carries the number of characters of the current match still to be stepped
over, producing the same skipping as a direct `List.drop` recursion while
remaining structurally recursive.  (The Python edge case of an empty
needle is not used by the program and is mapped to `0`.) -/
def countSubAux (p : List Char) (skip : Nat) : List Char → Nat
  | [] => 0
  | c :: rest =>
    match skip with
    | s + 1 => countSubAux p s rest
    | 0 =>
      if p ≠ [] && p.isPrefixOf (c :: rest) then
        1 + countSubAux p (p.length - 1) rest
      else
        countSubAux p 0 rest

def countSub (p : List Char) (l : List Char) : Nat :=
  countSubAux p 0 l

/-- Python `s.replace(old, new)`: replace every non-overlapping occurrence,
scanning left to right, with the same skip-counter scheme as `countSubAux`.
(Empty `old` is not used by the program.) -/
def replaceSubAux (old new : List Char) (skip : Nat) : List Char → List Char
  | [] => []
  | c :: rest =>
    match skip with
    | s + 1 => replaceSubAux old new s rest
    | 0 =>
      if old ≠ [] && old.isPrefixOf (c :: rest) then
        new ++ replaceSubAux old new (old.length - 1) rest
      else
        c :: replaceSubAux old new 0 rest

def replaceSub (old new : List Char) (l : List Char) : List Char :=
  replaceSubAux old new 0 l

/-- Python `s.replace(old, new)` on `String`. -/
def replaceStr (s old new : String) : String :=
  String.mk (replaceSub old.toList new.toList s.toList)

/-- Python `s.split(sep)` for a one-character separator (e.g. the lines of
a text for `"\n"`; a trailing separator yields a trailing empty part, as
in `"a\n".split("\n")`). -/
def splitOnCharL (sep : Char) : List Char → List (List Char)
  | [] => [[]]
  | c :: rest =>
    if c = sep then [] :: splitOnCharL sep rest
    else
      match splitOnCharL sep rest with
      | [] => [[c]]
      | l :: ls => (c :: l) :: ls

/-- The lines of a character list (`split("\n")`). -/
def splitLinesChars (l : List Char) : List (List Char) :=
  splitOnCharL '\n' l

/-- Lexicographic comparison of character lists by code point: Python
`a < b` on strings (also the order `list.sort` uses on the raw creation
strings). -/
def listLtChars : List Char → List Char → Bool
  | [], [] => false
  | [], _ :: _ => true
  | _ :: _, [] => false
  | a :: as, b :: bs =>
    if a < b then true else if b < a then false else listLtChars as bs

/-- Python string `<`. -/
def strLt (a b : String) : Bool :=
  listLtChars a.toList b.toList

/-- Python `s.lower()` (ASCII case mapping suffices for the strings the
program compares). -/
def lowerStr (s : String) : String :=
  String.mk (s.toList.map Char.toLower)

/-- Python `s.strip()`: remove leading and trailing whitespace. -/
def pyStripWS (s : String) : String :=
  String.mk
    (((s.toList.dropWhile Char.isWhitespace).reverse.dropWhile
        Char.isWhitespace).reverse)

/-- Python `s.strip(ch)` for a single strip character: remove every leading
and trailing occurrence. -/
def stripChar (ch : Char) (l : List Char) : List Char :=
  ((l.dropWhile (fun c => c = ch)).reverse.dropWhile (fun c => c = ch)).reverse

/-! ## Jira timestamp parsing

`main.py` parses every Jira timestamp with
`datetime.fromisoformat(s.replace("Z", "+00:00")).replace(tzinfo=None)`
and only ever compares the resulting naive datetimes.  We model the parse
as an `Option Nat` where the `Nat` is an order-preserving encoding of the
naive (offset-stripped) tuple `(year, month, day, hour, minute, second,
microsecond)`; two timestamps compare (`<`, `≤`, `=`) exactly as the naive
Python datetimes do.  The grammar is the extended ISO form produced by the
Jira API and accepted by `fromisoformat`:
`YYYY-MM-DD[<sep>HH[:MM[:SS[.|,f{1..6}]]][±HH[[:]MM]]]`
(basic-format variants without separators are not modelled). -/

/-- Read exactly `n` leading decimal digits, returning their value and the
rest of the input; fails if fewer are available. -/
def takeDigitsAux : Nat → Nat → List Char → Option (Nat × List Char)
  | 0, acc, l => some (acc, l)
  | _ + 1, _, [] => none
  | k + 1, acc, c :: r =>
    if c.isDigit then takeDigitsAux k (acc * 10 + (c.toNat - 48)) r else none

def takeDigitsN (n : Nat) (l : List Char) : Option (Nat × List Char) :=
  takeDigitsAux n 0 l

def isLeapYear (y : Nat) : Bool :=
  y % 4 = 0 && (y % 100 ≠ 0 || y % 400 = 0)

def daysInMonth (y m : Nat) : Nat :=
  if m = 2 then (if isLeapYear y then 29 else 28)
  else if m = 4 || m = 6 || m = 9 || m = 11 then 30
  else 31

/-- Order-preserving encoding of a naive datetime tuple. -/
def encodeNaive (y mo d hh mi ss micro : Nat) : Nat :=
  (((((y * 12 + (mo - 1)) * 31 + (d - 1)) * 24 + hh) * 60 + mi) * 60 + ss)
    * 1000000 + micro

/-- Parse the optional UTC-offset suffix and require end of input.  The
offset's value is validated but discarded (`.replace(tzinfo=None)` keeps
the wall-clock fields). -/
def parseOffsetEnd (y mo d hh mi ss micro : Nat) : List Char → Option Nat
  | [] => some (encodeNaive y mo d hh mi ss micro)
  | s :: r =>
    if s = '+' || s = '-' then
      match takeDigitsN 2 r with
      | none => none
      | some (oh, r1) =>
        match r1 with
        | [] => if oh ≤ 23 then some (encodeNaive y mo d hh mi ss micro) else none
        | ':' :: r2 =>
          match takeDigitsN 2 r2 with
          | some (om, []) =>
            if oh ≤ 23 && om ≤ 59 then some (encodeNaive y mo d hh mi ss micro)
            else none
          | _ => none
        | _ =>
          match takeDigitsN 2 r1 with
          | some (om, []) =>
            if oh ≤ 23 && om ≤ 59 then some (encodeNaive y mo d hh mi ss micro)
            else none
          | _ => none
    else none

/-- Parse the optional fractional-second part then the offset. -/
def parseFracEnd (y mo d hh mi ss : Nat) : List Char → Option Nat
  | c :: r =>
    if c = '.' || c = ',' then
      let digits := r.takeWhile Char.isDigit
      let rest := r.dropWhile Char.isDigit
      if digits.length = 0 || digits.length > 6 then none
      else
        let v := digits.foldl (fun a c => a * 10 + (c.toNat - 48)) 0
        parseOffsetEnd y mo d hh mi ss (v * 10 ^ (6 - digits.length)) rest
    else parseOffsetEnd y mo d hh mi ss 0 (c :: r)
  | [] => parseOffsetEnd y mo d hh mi ss 0 []

def parseTimeEnd (y mo d : Nat) (l : List Char) : Option Nat :=
  match takeDigitsN 2 l with
  | none => none
  | some (hh, r1) =>
    if hh > 23 then none
    else
      match r1 with
      | ':' :: r2 =>
        match takeDigitsN 2 r2 with
        | none => none
        | some (mi, r3) =>
          if mi > 59 then none
          else
            match r3 with
            | ':' :: r4 =>
              match takeDigitsN 2 r4 with
              | none => none
              | some (ss, r5) =>
                if ss > 59 then none else parseFracEnd y mo d hh mi ss r5
            | _ => parseFracEnd y mo d hh mi 0 r3
      | _ => parseFracEnd y mo d hh 0 0 r1

def pyParseNaiveChars (l : List Char) : Option Nat :=
  match takeDigitsN 4 l with
  | none => none
  | some (y, r1) =>
    match r1 with
    | '-' :: r2 =>
      match takeDigitsN 2 r2 with
      | none => none
      | some (mo, r3) =>
        match r3 with
        | '-' :: r4 =>
          match takeDigitsN 2 r4 with
          | none => none
          | some (d, r5) =>
            if mo < 1 || mo > 12 || d < 1 || d > daysInMonth y mo then none
            else
              match r5 with
              | [] => some (encodeNaive y mo d 0 0 0 0)
              | _sep :: r6 => parseTimeEnd y mo d r6
        | _ => none
    | _ => none

/-- `datetime.fromisoformat(s.replace("Z", "+00:00")).replace(tzinfo=None)`,
as an order-preserving numeric encoding; `none` models `ValueError`. -/
def pyParseNaive (s : String) : Option Nat :=
  pyParseNaiveChars (replaceStr s "Z" "+00:00").toList

/-! ## `get_comment_cutoff_date` (main.py lines 14-25)

A local `datetime.now()` value is modelled as a day index plus the
microseconds elapsed within the day; `day` counts days from a fixed Monday
epoch, so Python's `weekday()` (Monday = 0) is `day mod 7`, and
`timedelta(days = k)` subtraction decrements `day` by `k` leaving the time
of day untouched. -/

structure PyDateTime where
  day : Int
  timeOfDay : Nat
  deriving DecidableEq

def pyWeekday (t : PyDateTime) : Int :=
  t.day % 7

/-- `get_comment_cutoff_date` from main.py. -/
def get_comment_cutoff_date (today : PyDateTime) : PyDateTime :=
  if pyWeekday today = 0 then
    { today with day := today.day - 3 }
  else
    { today with day := today.day - 1 }

/-! ## `get_issue_comments` (main.py lines 27-59)

A decoded element of the `comments` array.  `created` is the raw creation
string (`comment.get("created", "")` yields `""` when the key is missing,
which the code treats as skip); `author` and `body` stand for the rest of
the comment payload, which the function returns untouched. -/

structure CommentJ where
  created : String
  author : String
  body : String
  deriving DecidableEq

/-- The filter condition of the loop in `get_issue_comments`: the created
string is non-empty, parses, and the parsed naive datetime is `≥ cutoff`;
a missing/empty `created` or a `ValueError` skips the comment. -/
def commentIsRecent (cutoff : Nat) (c : CommentJ) : Bool :=
  if c.created = "" then false
  else
    match pyParseNaive c.created with
    | some t => cutoff ≤ t
    | none => false

/-- Stable descending insertion for
`recent_comments.sort(key=lambda x: x.get("created", ""), reverse=True)`:
an element moves past exactly the later elements whose key is strictly
greater, so equal-key elements keep their original relative order. -/
def insertDescByCreated (x : CommentJ) : List CommentJ → List CommentJ
  | [] => [x]
  | y :: ys =>
    if strLt x.created y.created then y :: insertDescByCreated x ys
    else x :: y :: ys

/-- `list.sort(key=created-string, reverse=True)` (stable). -/
def sortDescByCreated (l : List CommentJ) : List CommentJ :=
  l.foldr insertDescByCreated []

/-- `get_issue_comments` from main.py, with the decoded `comments` array of
the HTTP response passed in. -/
def get_issue_comments (comments : List CommentJ) (cutoff : Nat) :
    Option CommentJ :=
  match sortDescByCreated (comments.filter (commentIsRecent cutoff)) with
  | [] => none
  | c :: _ => some c

/-! ## `get_issue_dependencies` (main.py lines 61-93)

Decoded shapes of the `issuelinks` payload.  `Option` models a missing or
`null` JSON key (Python `.get` returning the default / `None`); an
explicitly-empty linked-issue object, which Python would also treat as
falsy, is not distinguished from an absent one. -/

structure LinkedIssue where
  key : Option String
  summary : Option String
  statusName : Option String
  deriving DecidableEq

structure IssueLink where
  outwardIssue : Option LinkedIssue
  inwardIssue : Option LinkedIssue
  typeName : Option String
  deriving DecidableEq

structure Dependency where
  key : String
  project : String
  link_type : String
  summary : String
  status : String
  deriving DecidableEq

/-- `linked_key.split("-")[0] if "-" in linked_key else ""`
(`split("-")[0]` is the longest prefix before the first `-`). -/
def linkedProjectOf (linkedKey : String) : String :=
  if linkedKey.toList.contains '-' then
    String.mk (linkedKey.toList.takeWhile (fun c => c ≠ '-'))
  else ""

/-- The dependency record appended for a resolved linked issue. -/
def mkDependency (link : IssueLink) (li : LinkedIssue) : Dependency :=
  { key := li.key.getD ""
    project := linkedProjectOf (li.key.getD "")
    link_type := link.typeName.getD "Related"
    summary := li.summary.getD ""
    status := li.statusName.getD "Unknown" }

/-- The body of the `for link in issue_links` loop: the link contributes a
dependency only when the linked issue resolves
(`link.get("outwardIssue") or link.get("inwardIssue")`, outward first) and
its project prefix is non-empty (Python truthiness of `linked_project`)
and differs from the current project key. -/
def keepLink (currentProjectKey : String) (link : IssueLink) : Option Dependency :=
  match link.outwardIssue <|> link.inwardIssue with
  | none => none
  | some li =>
    if linkedProjectOf (li.key.getD "") ≠ "" ∧
        linkedProjectOf (li.key.getD "") ≠ currentProjectKey then
      some (mkDependency link li)
    else none

/-- `get_issue_dependencies` from main.py, with the decoded `issuelinks`
array passed in: the loop appends the kept links in order. -/
def get_issue_dependencies (links : List IssueLink) (currentProjectKey : String) :
    List Dependency :=
  links.filterMap (keepLink currentProjectKey)

/-! ## `get_dependency_changes` (main.py lines 95-175)

The two HTTP fetches are passed in as `Except Unit _` values: `.error ()`
models a `requests.exceptions.RequestException` (including the
`raise_for_status` of the issue fetch), which the function's outer
`try/except` turns into `None`.  The comment fetch carries its status code
because the code only counts comments when it is 200. -/

structure HistItem where
  fieldName : Option String
  fromStr : Option String
  toStr : Option String
  deriving DecidableEq

structure History where
  created : Option String
  items : List HistItem
  deriving DecidableEq

structure DepIssuePayload where
  updated : Option String
  histories : List History
  deriving DecidableEq

structure DepComment where
  created : Option String
  deriving DecidableEq

/-- Python f-string interpolation of a `.get(..)` result: `None` renders as
`"None"`. -/
def pyShowOptStr : Option String → String
  | some s => s
  | none => "None"

/-- `value or "Unassigned"`: Python falsiness of `None` and `""`. -/
def orUnassigned : Option String → String
  | some s => if s = "" then "Unassigned" else s
  | none => "Unassigned"

/-- The change line produced for one changelog item, if its field is one of
the translated ones. -/
def histItemLine (item : HistItem) : Option String :=
  if item.fieldName = some "status" then
    some ("Status: " ++ pyShowOptStr item.fromStr ++ " → " ++ pyShowOptStr item.toStr)
  else if item.fieldName = some "assignee" then
    some ("Assignee: " ++ orUnassigned item.fromStr ++ " → " ++ orUnassigned item.toStr)
  else if item.fieldName = some "summary" then
    some "Summary updated"
  else if item.fieldName = some "description" then
    some "Description updated"
  else if item.fieldName = some "priority" || item.fieldName = some "Priority" then
    some ("Priority: " ++ pyShowOptStr item.fromStr ++ " → " ++ pyShowOptStr item.toStr)
  else none

/-- The change lines contributed by one changelog history batch: items are
translated only when the batch's `created` is present, parses, and is
`≥ cutoff`; a missing/empty/unparsable date skips the batch. -/
def historyLines (cutoff : Nat) (h : History) : List String :=
  match h.created with
  | none => []
  | some s =>
    if s = "" then []
    else
      match pyParseNaive s with
      | none => []
      | some t => if cutoff ≤ t then h.items.filterMap histItemLine else []

/-- The comment-counting filter of `get_dependency_changes`. -/
def depCommentIsRecent (cutoff : Nat) (c : DepComment) : Bool :=
  match c.created with
  | none => false
  | some s =>
    if s = "" then false
    else
      match pyParseNaive s with
      | some t => cutoff ≤ t
      | none => false

/-- `get_dependency_changes` from main.py. -/
def get_dependency_changes (fetchIssue : Except Unit DepIssuePayload)
    (fetchComments : Except Unit (Nat × List DepComment)) (cutoff : Nat) :
    Option (List String) :=
  match fetchIssue with
  | .error _ => none
  | .ok payload =>
    match payload.updated with
    | none => none
    | some updatedStr =>
      if updatedStr = "" then none
      else
        match pyParseNaive updatedStr with
        | none => none
        | some updatedAt =>
          if updatedAt < cutoff then none
          else
            let changes := (payload.histories.map (historyLines cutoff)).flatten
            match fetchComments with
            | .error _ => none
            | .ok (status, comments) =>
              let changes :=
                if status = 200 then
                  let n := (comments.filter (depCommentIsRecent cutoff)).length
                  if n > 0 then
                    changes ++
                      [toString n ++ " new comment" ++ (if n > 1 then "s" else "")]
                  else changes
                else changes
              if changes.isEmpty then none else some changes

/-! ## `get_active_sprint` (main.py lines 376-395) and its caller gate
(lines 410-413)

`fetchSprints startAt maxResults` models the paginated sprint-listing API:
it returns the decoded `values` array of the page requested with those two
query parameters.  `total` is the `total` field returned by
`get_number_of_sprints` (an arbitrary integer as far as the code is
concerned: `max(0, ...)` guards the small case). -/

structure Sprint where
  id : Option Int
  name : String
  state : Option String
  deriving DecidableEq

/-- `sprint.get("state") == "active"`. -/
def sprintIsActive (s : Sprint) : Bool :=
  s.state = some "active"

/-- `get_active_sprint` from main.py: one page of size 50 starting at
`max(0, total - 50)`, scanned in order for the first active sprint. -/
def get_active_sprint (fetchSprints : Int → Int → List Sprint) (total : Int) :
    Option Sprint :=
  let max_results : Int := 50
  let sprints := fetchSprints (max 0 (total - max_results)) max_results
  sprints.find? sprintIsActive

/-- Outcome of the `main` gate
`if not active_sprint or not active_sprint.get("id"):`. -/
inductive SprintGate where
  | noReport (message : String)
  | proceed (sprint : Sprint)
  deriving DecidableEq

/-- The caller's treatment of `get_active_sprint`'s result (main.py lines
410-413): `None`, a missing `id`, or a falsy `id == 0` print a message and
return cleanly; otherwise the report proceeds. -/
def sprintGate : Option Sprint → SprintGate
  | none => .noReport "No active sprint found."
  | some s =>
    match s.id with
    | none => .noReport "No active sprint found."
    | some i => if i = 0 then .noReport "No active sprint found." else .proceed s

/-! ## `extract_gitlab_mr_info` (main.py lines 216-246) -/

/-- Split at the first occurrence of the pattern, returning the parts
before and after it (the pattern itself removed). -/
def splitAtSub (p : List Char) : List Char → Option (List Char × List Char)
  | [] => none
  | c :: rest =>
    if p ≠ [] && p.isPrefixOf (c :: rest) then
      some ([], List.drop (p.length - 1) rest)
    else
      match splitAtSub p rest with
      | none => none
      | some (before, after) => some (c :: before, after)

def isSchemeChar (c : Char) : Bool :=
  c.isAlphanum || c = '+' || c = '-' || c = '.'

/-- `urlparse(url).path` for the URL shapes the program meets: when a valid
`scheme://` prefix is present the path starts at the first `/` after the
network location, otherwise the whole string is the path; the query (`?`)
and fragment (`#`) parts are cut off. -/
def urlparsePath (u : String) : String :=
  let cs := u.toList
  let afterNetloc :=
    match splitAtSub "://".toList cs with
    | some (before, after) =>
      if before ≠ [] && (before.headD ' ').isAlpha && before.all isSchemeChar then
        after.dropWhile (fun c => c ≠ '/')
      else cs
    | none => cs
  String.mk (afterNetloc.takeWhile (fun c => c ≠ '?' && c ≠ '#'))

/-- `extract_gitlab_mr_info` from main.py: `(project_path, mr_id)` from a
GitLab merge-request URL, `none` for `(None, None)`. -/
def extract_gitlab_mr_info (gitlab_url : String) : Option (String × String) :=
  if gitlab_url = "" || !containsStr gitlab_url "cd.splunkdev.com" then none
  else
    let path := urlparsePath gitlab_url
    let path_parts := splitOnCharL '/' (stripChar '/' path.toList)
    match path_parts.findIdx? (fun part => part = "merge_requests".toList) with
    | none => none
    | some mr_index =>
      if mr_index + 1 < path_parts.length then
        let mr_id := String.mk (path_parts.getD (mr_index + 1) [])
        let project_parts := path_parts.takeWhile (fun part => part ≠ ['-'])
        some (String.mk ((List.intersperse ['/'] project_parts).flatten), mr_id)
      else none

/-! ## The two regex extractions (main.py lines 191-192, 202-203, 346-347)

`re.search(r'merge request of ([^:]+?) on branch', text)` and
`re.search(r'on branch ([^:]+):', text)`, modelled with Python's
leftmost-match semantics: candidate start positions are tried left to
right; the lazy group takes the shortest non-empty colon-free run before
`" on branch"`, the greedy group the run of non-colon characters up to a
required `:`. -/

/-- The lazy group `([^:]+?)` followed by the literal `" on branch"`:
stop at the first position (after at least one character) where the
literal follows; fail on a colon or end of input. -/
def projCaptureGo (acc : List Char) : List Char → Option (List Char)
  | [] =>
    if acc ≠ [] && " on branch".toList.isPrefixOf [] then some acc.reverse
    else none
  | c :: rs =>
    if acc ≠ [] && " on branch".toList.isPrefixOf (c :: rs) then some acc.reverse
    else if c = ':' then none
    else projCaptureGo (c :: acc) rs

def scanProject : List Char → Option (List Char)
  | [] => none
  | c :: rest =>
    if "merge request of ".toList.isPrefixOf (c :: rest) then
      match projCaptureGo [] (List.drop 16 rest) with
      | some cap => some cap
      | none => scanProject rest
    else scanProject rest

/-- `re.search(r'merge request of ([^:]+?) on branch', text)`, group 1. -/
def searchProjectRaw (text : String) : Option String :=
  (scanProject text.toList).map String.mk

def scanBranch : List Char → Option (List Char)
  | [] => none
  | c :: rest =>
    if "on branch ".toList.isPrefixOf (c :: rest) then
      let tail := List.drop 9 rest
      let run := tail.takeWhile (fun c => c ≠ ':')
      let after := tail.dropWhile (fun c => c ≠ ':')
      if run ≠ [] && after ≠ [] then some run else scanBranch rest
    else scanBranch rest

/-- `re.search(r'on branch ([^:]+):', text)`, group 1. -/
def searchBranchRaw (text : String) : Option String :=
  (scanBranch text.toList).map String.mk

/-! ## `format_gitlab_mr_comment` (main.py lines 177-214)

`gitlab_mr_url = none` models a missing (or falsy empty) URL.  Python's
`.strip()` on the captured groups is modelled by `String.trim`. -/

def format_gitlab_mr_comment (comment_text author_name : String)
    (gitlab_mr_url : Option String) : Option String :=
  if !containsStr (lowerStr author_name) "jira-gitlab" then none
  else if !containsStr (lowerStr comment_text) "merge request" then none
  else
    match gitlab_mr_url with
    | some url =>
      match searchProjectRaw comment_text, searchBranchRaw comment_text with
      | some p, some b =>
        some ("MR: " ++ pyStripWS p ++ " (branch: " ++ pyStripWS b ++ ") - " ++ url)
      | _, _ => some ("MR: " ++ url)
    | none =>
      match searchBranchRaw comment_text, searchProjectRaw comment_text with
      | some b, some p =>
        some ("MR: " ++ pyStripWS p ++ " (branch: " ++ pyStripWS b ++ ")")
      | _, _ =>
        if containsStr (lowerStr comment_text) "merge request" then
          some "MR: GitLab merge request mentioned"
        else none

/-! ## `get_gitlab_mr_stats` (main.py lines 248-322)

The two GitLab API fetches are passed in as `Except Unit _` values whose
`.error ()` models a `requests.RequestException` caught by the function's
handler; `.ok` carries the status code and the decoded JSON payload.
`gitlab_token = none` models a missing (or falsy) token. -/

structure MrData where
  title : Option String
  state : Option String
  authorName : Option String
  created_at : Option String
  updated_at : Option String
  user_notes_count : Option Int
  upvotes : Option Int
  downvotes : Option Int
  deriving DecidableEq

structure ChangeEntry where
  diff : Option String
  deriving DecidableEq

structure MrStats where
  title : String
  state : String
  author : String
  created_at : String
  updated_at : String
  commits : Int
  upvotes : Int
  downvotes : Int
  /-- `(files_changed, additions, deletions)`, added to the dictionary only
  when the changes fetch returned 200. -/
  diffStats : Option (Nat × Int × Int)
  deriving DecidableEq

inductive MrStatsResult where
  /-- Python `None` (unparsable URL). -/
  | noInfo
  /-- `{"error": msg}`. -/
  | apiError (msg : String)
  | stats (s : MrStats)
  deriving DecidableEq

/-- `diff.count("\n+") - diff.count("\n+++")` for one change entry. -/
def diffAdded (diff : String) : Int :=
  (countSub "\n+".toList diff.toList : Int) -
    (countSub "\n+++".toList diff.toList : Int)

/-- `diff.count("\n-") - diff.count("\n---")` for one change entry. -/
def diffRemoved (diff : String) : Int :=
  (countSub "\n-".toList diff.toList : Int) -
    (countSub "\n---".toList diff.toList : Int)

/-- `get_gitlab_mr_stats` from main.py.  The guard
`if not project_path or not mr_id: return None` covers both the
`(None, None)` result of `extract_gitlab_mr_info` (our `none`) and an
empty (falsy) component of a parsed pair. -/
def get_gitlab_mr_stats (gitlab_url : String) (gitlab_token : Option String)
    (fetchMr : Except Unit (Nat × MrData))
    (fetchChanges : Except Unit (Nat × List ChangeEntry)) : MrStatsResult :=
  match extract_gitlab_mr_info gitlab_url with
  | none => .noInfo
  | some (project_path, mr_id) =>
    if project_path = "" ∨ mr_id = "" then .noInfo
    else
    match fetchMr with
    | .error _ => .apiError "Failed to connect to GitLab API"
    | .ok (status, mr_data) =>
      if status = 401 then .apiError "GitLab API authentication required"
      else if status = 404 then
        match gitlab_token with
        | none => .apiError "GitLab token required for MR statistics"
        | some _ => .apiError "MR not found"
      else if status ≠ 200 then .apiError ("GitLab API error: " ++ toString status)
      else
        match fetchChanges with
        | .error _ => .apiError "Failed to connect to GitLab API"
        | .ok (changesStatus, changes) =>
          let base : MrStats :=
            { title := mr_data.title.getD ""
              state := mr_data.state.getD ""
              author := mr_data.authorName.getD "Unknown"
              created_at := mr_data.created_at.getD ""
              updated_at := mr_data.updated_at.getD ""
              commits := mr_data.user_notes_count.getD 0
              upvotes := mr_data.upvotes.getD 0
              downvotes := mr_data.downvotes.getD 0
              diffStats := none }
          if changesStatus = 200 then
            let files_changed := changes.length
            let additions :=
              changes.foldl (fun a c => a + diffAdded (c.diff.getD "")) (0 : Int)
            let deletions :=
              changes.foldl (fun a c => a + diffRemoved (c.diff.getD "")) (0 : Int)
            .stats { base with
                      diffStats := some (files_changed, max 0 additions, max 0 deletions) }
          else .stats base

/-- `format_gitlab_mr_with_stats` from main.py (lines 324-356). -/
def format_gitlab_mr_with_stats (comment_text author_name : String)
    (gitlab_mr_url : Option String) (gitlab_token : Option String)
    (fetchMr : Except Unit (Nat × MrData))
    (fetchChanges : Except Unit (Nat × List ChangeEntry)) : Option String :=
  let basic_format := format_gitlab_mr_comment comment_text author_name gitlab_mr_url
  match basic_format, gitlab_mr_url with
  | none, _ => none
  | some b, none => some b
  | some b, some url =>
    match get_gitlab_mr_stats url gitlab_token fetchMr fetchChanges with
    | .noInfo => some b
    | .apiError _ => some b
    | .stats st =>
      let state := st.state
      let (files, additions, deletions) := st.diffStats.getD (0, 0, 0)
      let stats_info :=
        "(" ++ state ++ ", " ++ toString files ++ " files, +" ++
          toString additions ++ "/-" ++ toString deletions ++ ")"
      match searchProjectRaw comment_text, searchBranchRaw comment_text with
      | some p, some br =>
        some ("MR: " ++ pyStripWS p ++ " (branch: " ++ pyStripWS br ++ ") " ++
          stats_info ++ " - " ++ url)
      | _, _ => some ("MR: " ++ stats_info ++ " - " ++ url)

/-! ## Rich-text (ADF) comment extraction (main.py lines 433-455)

The comment body is an arbitrary decoded JSON value.  The extraction loop
of `main` is modelled in an `Except String` monad whose error strings name
the Python exception the interpreter would raise (`AttributeError` for
`.get` on a non-dict, `TypeError` for iterating a non-iterable or
concatenating a non-string); missing keys never raise, they produce the
`.get` default. -/

inductive JValue where
  | null
  | bool (b : Bool)
  | num (n : Int)
  | str (s : String)
  | arr (elems : List JValue)
  | obj (entries : List (String × JValue))

/-- Dictionary lookup (JSON objects have unique keys; first match). -/
def jlookup (entries : List (String × JValue)) (k : String) : Option JValue :=
  (entries.find? (fun kv => kv.1 = k)).map (fun kv => kv.2)

/-- Python `v.get(k, default)`: raises `AttributeError` unless `v` is a
dict; a key present with value `null` yields `null`, not the default. -/
def pyGet (v : JValue) (k : String) (dflt : JValue) : Except String JValue :=
  match v with
  | .obj entries => .ok ((jlookup entries k).getD dflt)
  | _ => .error "AttributeError"

/-- Python `for x in v`: lists yield their elements, strings their
characters (as 1-character strings), dicts their keys; other values raise
`TypeError`. -/
def pyIter (v : JValue) : Except String (List JValue) :=
  match v with
  | .arr xs => .ok xs
  | .str s => .ok (s.toList.map (fun c => .str (String.mk [c])))
  | .obj entries => .ok (entries.map (fun kv => JValue.str kv.1))
  | _ => .error "TypeError"

/-- Python `needle in v` for a string needle: substring test on strings,
membership on lists and dicts, `TypeError` otherwise. -/
def pyInStr (needle : String) (v : JValue) : Except String Bool :=
  match v with
  | .str s => .ok (containsStr s needle)
  | .arr xs =>
    .ok (xs.any (fun x => match x with | .str t => t = needle | _ => false))
  | .obj entries => .ok (entries.any (fun kv => kv.1 = needle))
  | _ => .error "TypeError"

/-- Python `v == "s"` for a string literal: true only on equal strings. -/
def isStrVal (v : JValue) (s : String) : Bool :=
  match v with
  | .str t => t = s
  | _ => false

def pyQuote : String :=
  String.mk [Char.ofNat 39]

/-- Python `repr`, for the values reachable here (string escaping and
quote-style selection inside nested strings are elided). -/
def pyRepr : JValue → String
  | .null => "None"
  | .bool true => "True"
  | .bool false => "False"
  | .num n => toString n
  | .str s => pyQuote ++ s ++ pyQuote
  | .arr xs =>
    "[" ++ String.intercalate ", " (xs.attach.map (fun x => pyRepr x.1)) ++ "]"
  | .obj entries =>
    "\x7b" ++
      String.intercalate ", "
        (entries.attach.map
          (fun kv => pyQuote ++ kv.1.1 ++ pyQuote ++ ": " ++ pyRepr kv.1.2)) ++
      "\x7d"
  termination_by v => sizeOf v
  decreasing_by
    · have := List.sizeOf_lt_of_mem x.2
      simp only [JValue.arr.sizeOf_spec]
      omega
    · have h1 := List.sizeOf_lt_of_mem kv.2
      have h2 : sizeOf kv.1.2 < sizeOf kv.1 := by
        obtain ⟨a, b⟩ := kv.1
        simp
      simp only [JValue.obj.sizeOf_spec]
      omega

/-- Python `str`: identity on strings, `repr`-like elsewhere. -/
def pyStr (v : JValue) : String :=
  match v with
  | .str s => s
  | _ => pyRepr v

/-- The mutable state of the extraction loop:
`comment_text` and `gitlab_mr_url`. -/
structure ExtState where
  text : String
  url : Option JValue

/-- The body of `for mark in marks` (main.py lines 449-453).  Note the
assignment `gitlab_mr_url = href` overwrites any previous match. -/
def procMark (st : ExtState) (mark : JValue) : Except String ExtState := do
  let t ← pyGet mark "type" .null
  if isStrVal t "link" then
    let attrs ← pyGet mark "attrs" (.obj [])
    let href ← pyGet attrs "href" (.str "")
    let c1 ← pyInStr "cd.splunkdev.com" href
    if c1 then
      let c2 ← pyInStr "merge_requests" href
      if c2 then pure { st with url := some href } else pure st
    else pure st
  else pure st

/-- The body of `for text_node in paragraph_content` (lines 443-453). -/
def procTextNode (st : ExtState) (node : JValue) : Except String ExtState := do
  let t ← pyGet node "type" .null
  if isStrVal t "text" then
    let tx ← pyGet node "text" (.str "")
    match tx with
    | .str s =>
      let st1 : ExtState := { st with text := st.text ++ s }
      let marksV ← pyGet node "marks" (.arr [])
      let marks ← pyIter marksV
      marks.foldlM procMark st1
    | _ => .error "TypeError"
  else pure st

/-- The body of `for block in content` (lines 440-453). -/
def procBlock (st : ExtState) (block : JValue) : Except String ExtState := do
  let t ← pyGet block "type" .null
  if isStrVal t "paragraph" then
    let contentV ← pyGet block "content" (.arr [])
    let nodes ← pyIter contentV
    nodes.foldlM procTextNode st
  else pure st

/-- The comment-body extraction of `main` (lines 433-455): a dict body is
walked as an ADF document accumulating `comment_text` and the (last
matching) `gitlab_mr_url`; any other body becomes `str(comment_body)` with
no URL. -/
def extractCommentBody (body : JValue) : Except String (String × Option JValue) :=
  match body with
  | .obj _ => do
    let contentV ← pyGet body "content" (.arr [])
    let blocks ← pyIter contentV
    let st ← blocks.foldlM procBlock ⟨"", none⟩
    pure (st.text, st.url)
  | _ => .ok (pyStr body, none)

/-- The extracted `gitlab_mr_url`, when the extraction succeeds and the
recorded value is a string. -/
def extractedUrlStr (body : JValue) : Option String :=
  match extractCommentBody body with
  | .ok (_, some (.str s)) => some s
  | _ => none

/-- The extracted `comment_text`, when the extraction succeeds. -/
def extractedText (body : JValue) : Option String :=
  match extractCommentBody body with
  | .ok (t, _) => some t
  | _ => none

/-- Does the extraction raise? -/
def extractionRaises (body : JValue) : Bool :=
  match extractCommentBody body with
  | .error _ => true
  | .ok _ => false

/-! Well-typedness of a comment body: every field the loop touches has,
when present, the type the code expects.  Missing fields are always
allowed (the `.get` defaults cover them).  The grammar has fixed depth, so
no recursion is needed. -/

/-- The optional field is absent or a string. -/
def wtOptStr : Option JValue → Bool
  | none => true
  | some (.str _) => true
  | some _ => false

/-- The optional field is absent or a list whose members all satisfy `p`. -/
def wtOptArrAll (o : Option JValue) (p : JValue → Bool) : Bool :=
  match o with
  | none => true
  | some (.arr xs) => xs.all p
  | some _ => false

/-- The optional `attrs` field is absent or a dict whose `href`, when
present, is a string. -/
def wtAttrs : Option JValue → Bool
  | none => true
  | some (.obj attrEntries) => wtOptStr (jlookup attrEntries "href")
  | some _ => false

def wtMark (m : JValue) : Bool :=
  match m with
  | .obj entries =>
    if (jlookup entries "type").any (fun t => isStrVal t "link") then
      wtAttrs (jlookup entries "attrs")
    else true
  | _ => false

def wtTextNode (n : JValue) : Bool :=
  match n with
  | .obj entries =>
    if (jlookup entries "type").any (fun t => isStrVal t "text") then
      wtOptStr (jlookup entries "text") &&
        wtOptArrAll (jlookup entries "marks") wtMark
    else true
  | _ => false

def wtBlock (b : JValue) : Bool :=
  match b with
  | .obj entries =>
    if (jlookup entries "type").any (fun t => isStrVal t "paragraph") then
      wtOptArrAll (jlookup entries "content") wtTextNode
    else true
  | _ => false

/-- A comment body on which every present field is well-typed. -/
def wellTypedBody (body : JValue) : Bool :=
  match body with
  | .obj entries => wtOptArrAll (jlookup entries "content") wtBlock
  | _ => true

/-! # Claim theorems -/

/-! ## C6: the cutoff policy -/

/-- C6: for every current date, the cutoff returned by
`get_comment_cutoff_date` is exactly 3 days before now when the current
weekday is Monday (`weekday() = 0`; the result then lands on a Friday),
and exactly 1 day before now on every other weekday; the two branches are
exhaustive, so no other day-of-week exception exists. -/
theorem cutoff_policy_c6 (today : PyDateTime) :
    (pyWeekday today = 0 →
      get_comment_cutoff_date today = ⟨today.day - 3, today.timeOfDay⟩ ∧
        pyWeekday (get_comment_cutoff_date today) = 4) ∧
    (pyWeekday today ≠ 0 →
      get_comment_cutoff_date today = ⟨today.day - 1, today.timeOfDay⟩) := by
  obtain ⟨d, m⟩ := today
  constructor
  · intro h
    have hcut : get_comment_cutoff_date ⟨d, m⟩ = ⟨d - 3, m⟩ := by
      simp [get_comment_cutoff_date, h]
    refine ⟨hcut, ?_⟩
    rw [hcut]
    simp only [pyWeekday] at h ⊢
    omega
  · intro h
    simp [get_comment_cutoff_date, h]

/-- Witness for C6 at a concrete Monday (day index 14) and a concrete
Wednesday (day index 16). -/
theorem cutoff_policy_c6_witness :
    get_comment_cutoff_date ⟨14, 5⟩ = ⟨11, 5⟩ ∧
      get_comment_cutoff_date ⟨16, 5⟩ = ⟨15, 5⟩ :=
  ⟨((cutoff_policy_c6 ⟨14, 5⟩).1 (by decide)).1,
    (cutoff_policy_c6 ⟨16, 5⟩).2 (by decide)⟩

/-! ## C7: active-sprint resolution -/

/-- `List.find?` returns the first element satisfying the predicate. -/
theorem find?_eq_some_split {α : Type} {p : α → Bool} {l : List α} {a : α}
    (h : l.find? p = some a) :
    p a = true ∧ ∃ pre post, l = pre ++ a :: post ∧ ∀ x ∈ pre, p x = false := by
  induction l with
  | nil => simp [List.find?] at h
  | cons b t ih =>
    by_cases hb : p b = true
    · rw [List.find?_cons_of_pos _ hb] at h
      obtain rfl : b = a := by injection h
      exact ⟨hb, [], t, rfl, by simp⟩
    · have hb' : p b = false := by simp [Bool.not_eq_true] at hb; exact hb
      rw [List.find?_cons_of_neg _ (by simp [hb'])] at h
      obtain ⟨hpa, pre, post, rfl, hpre⟩ := ih h
      exact ⟨hpa, b :: pre, post, rfl, by
        intro x hx
        rcases List.mem_cons.mp hx with rfl | hx
        · exact hb'
        · exact hpre x hx⟩

/-- C7: `get_active_sprint` queries the sprint total, fetches the single
page of size 50 starting at `max 0 (total - 50)`, scans it in order and
returns the first sprint whose state is `"active"`; it returns `none` iff
no sprint of that page is active, and the caller turns `none` into a clean
"No active sprint found." termination rather than an error. -/
theorem active_sprint_c7 (fetchSprints : Int → Int → List Sprint) (total : Int) :
    (∀ s, get_active_sprint fetchSprints total = some s →
      sprintIsActive s = true ∧
        ∃ pre post, fetchSprints (max 0 (total - 50)) 50 = pre ++ s :: post ∧
          ∀ x ∈ pre, sprintIsActive x = false) ∧
    (get_active_sprint fetchSprints total = none ↔
      ∀ x ∈ fetchSprints (max 0 (total - 50)) 50, x.state ≠ some "active") ∧
    sprintGate none = .noReport "No active sprint found." := by
  refine ⟨?_, ?_, rfl⟩
  · intro s hs
    obtain ⟨hp, pre, post, hsplit, hpre⟩ := find?_eq_some_split hs
    exact ⟨hp, pre, post, hsplit, hpre⟩
  · rw [get_active_sprint, List.find?_eq_none]
    constructor
    · intro h x hx
      have := h x hx
      simpa [sprintIsActive] using this
    · intro h x hx
      simpa [sprintIsActive] using h x hx

/-- Concrete page for the C7 witness: the second sprint is the first
active one. -/
def sprintPageW : List Sprint :=
  [⟨some 1, "Sprint 41", some "closed"⟩,
   ⟨some 2, "Sprint 42", some "active"⟩,
   ⟨some 3, "Sprint 43", some "active"⟩]

def fetchSprintsW (startAt maxResults : Int) : List Sprint :=
  if startAt = 0 && maxResults = 50 then sprintPageW else []

def fetchSprintsEmptyW (_ _ : Int) : List Sprint :=
  [⟨some 1, "Sprint 41", some "closed"⟩]

/-- Witness for C7: the first active sprint of the fetched page is
returned, and a page with no active sprint yields `none`. -/
theorem active_sprint_c7_witness :
    (sprintIsActive ⟨some 2, "Sprint 42", some "active"⟩ = true ∧
      ∃ pre post,
        fetchSprintsW (max 0 ((3 : Int) - 50)) 50 =
          pre ++ (⟨some 2, "Sprint 42", some "active"⟩ : Sprint) :: post ∧
          ∀ x ∈ pre, sprintIsActive x = false) ∧
    get_active_sprint fetchSprintsEmptyW 3 = none :=
  ⟨(active_sprint_c7 fetchSprintsW 3).1 ⟨some 2, "Sprint 42", some "active"⟩
      (by decide),
    ((active_sprint_c7 fetchSprintsEmptyW 3).2.1).mpr (by decide)⟩

/-! ## C2: the staleness gate of `get_dependency_changes` -/

/-- C2: whenever the fetched dependency issue's `updated` timestamp parses
to a value strictly before the cutoff, `get_dependency_changes` returns
`none` — for every changelog (including histories dated on or after the
cutoff) and every comment-fetch outcome: the staleness gate precedes the
changelog scan. -/
theorem dependency_changes_gate_c2 (payload : DepIssuePayload)
    (fetchComments : Except Unit (Nat × List DepComment)) (cutoff : Nat)
    (s : String) (t : Nat) (hs : payload.updated = some s)
    (ht : pyParseNaive s = some t) (hlt : t < cutoff) :
    get_dependency_changes (.ok payload) fetchComments cutoff = none := by
  have hne : s ≠ "" := by
    intro h
    rw [h] at ht
    exact Option.noConfusion ((rfl : pyParseNaive "" = none) ▸ ht)
  simp [get_dependency_changes, hs, hne, ht, hlt]

/-- C2 witness payload: `updated` two days before the cutoff, while the
changelog carries a status change dated after the cutoff. -/
def depPayloadW : DepIssuePayload :=
  { updated := some "2024-01-10T00:00:00.000+0000"
    histories :=
      [{ created := some "2024-01-13T08:00:00.000+0000"
         items := [{ fieldName := some "status"
                     fromStr := some "Open"
                     toStr := some "Done" }] }] }

/-- Witness for C2: a stale issue with a recent changelog batch and a
recent comment still yields `none`. -/
theorem dependency_changes_gate_c2_witness :
    get_dependency_changes (.ok depPayloadW)
      (.ok (200, [{ created := some "2024-01-13T09:00:00.000+0000" }]))
      (encodeNaive 2024 1 12 0 0 0 0) = none :=
  dependency_changes_gate_c2 depPayloadW
    (.ok (200, [{ created := some "2024-01-13T09:00:00.000+0000" }]))
    (encodeNaive 2024 1 12 0 0 0 0)
    "2024-01-10T00:00:00.000+0000" (encodeNaive 2024 1 10 0 0 0 0)
    rfl (by decide) (by decide)

/-! ## C10 and C3: cross-team dependency extraction -/

/-- A non-empty project prefix certifies a separator in the key. -/
theorem linkedProjectOf_ne_empty {k : String} (h : linkedProjectOf k ≠ "") :
    k.toList.contains '-' = true := by
  cases hc : k.toList.contains '-' with
  | true => rfl
  | false => exact absurd (by unfold linkedProjectOf; rw [hc]; simp) h

/-- Characterization of the loop body `keepLink`. -/
theorem keepLink_eq_some {cur : String} {link : IssueLink} {d : Dependency} :
    keepLink cur link = some d ↔
      ∃ li, (link.outwardIssue <|> link.inwardIssue) = some li ∧
        linkedProjectOf (li.key.getD "") ≠ "" ∧
        linkedProjectOf (li.key.getD "") ≠ cur ∧ d = mkDependency link li := by
  unfold keepLink
  split
  · rename_i heq
    rw [heq]
    simp
  · rename_i li heq
    rw [heq]
    by_cases hc : linkedProjectOf (li.key.getD "") ≠ "" ∧
        linkedProjectOf (li.key.getD "") ≠ cur
    · rw [if_pos hc]
      constructor
      · intro h
        exact ⟨li, rfl, hc.1, hc.2, (Option.some_inj.mp h).symm⟩
      · rintro ⟨li', hli, _, _, rfl⟩
        obtain rfl : li = li' := Option.some_inj.mp hli
        rfl
    · rw [if_neg hc]
      constructor
      · intro h
        exact absurd h (by simp)
      · rintro ⟨li', hli, h1, h2, _⟩
        obtain rfl : li = li' := Option.some_inj.mp hli
        exact absurd ⟨h1, h2⟩ hc

/-- C10: every returned dependency's key contains a `-` separator and a
non-empty project prefix (that prefix being `d.project`), and a link whose
resolved key has no separator never contributes a dependency: the empty
prefix never counts as cross-team. -/
theorem dependency_key_separator_c10 (links : List IssueLink) (cur : String) :
    (∀ d ∈ get_issue_dependencies links cur,
      d.key.toList.contains '-' = true ∧ d.project ≠ "" ∧
        d.project = linkedProjectOf d.key) ∧
    (∀ link li, (link.outwardIssue <|> link.inwardIssue) = some li →
      (li.key.getD "").toList.contains '-' = false →
      mkDependency link li ∉ get_issue_dependencies links cur) := by
  constructor
  · intro d hd
    obtain ⟨link, _, hkeep⟩ := List.mem_filterMap.mp hd
    obtain ⟨li, _, h1, _, rfl⟩ := keepLink_eq_some.mp hkeep
    refine ⟨?_, h1, rfl⟩
    exact linkedProjectOf_ne_empty h1
  · intro link li _ hnodash hmem
    obtain ⟨link', _, hkeep⟩ := List.mem_filterMap.mp hmem
    obtain ⟨li', _, h1, _, heq⟩ := keepLink_eq_some.mp hkeep
    have hproj : (mkDependency link li).project = "" := by
      show linkedProjectOf (li.key.getD "") = ""
      rw [linkedProjectOf, hnodash]
      simp
    rw [heq] at hproj
    exact h1 hproj

/-- Witness for C10 at a concrete link list: a cross-project link yields a
dependency with a separated key, and a dash-less link yields nothing. -/
theorem dependency_key_separator_c10_witness :
    ((⟨"OTHER-9", "OTHER", "Blocks", "s", "Open"⟩ : Dependency).key.toList.contains
        '-' = true ∧
      (⟨"OTHER-9", "OTHER", "Blocks", "s", "Open"⟩ : Dependency).project ≠ "" ∧
      (⟨"OTHER-9", "OTHER", "Blocks", "s", "Open"⟩ : Dependency).project =
        linkedProjectOf "OTHER-9") ∧
    mkDependency ⟨some ⟨some "PLAIN", some "s", some "Open"⟩, none, some "Blocks"⟩
        ⟨some "PLAIN", some "s", some "Open"⟩ ∉
      get_issue_dependencies
        [⟨some ⟨some "PLAIN", some "s", some "Open"⟩, none, some "Blocks"⟩,
         ⟨some ⟨some "OTHER-9", some "s", some "Open"⟩, none, some "Blocks"⟩]
        "PROJ" :=
  ⟨(dependency_key_separator_c10
      [⟨some ⟨some "PLAIN", some "s", some "Open"⟩, none, some "Blocks"⟩,
       ⟨some ⟨some "OTHER-9", some "s", some "Open"⟩, none, some "Blocks"⟩]
      "PROJ").1 ⟨"OTHER-9", "OTHER", "Blocks", "s", "Open"⟩ (by decide),
    (dependency_key_separator_c10
      [⟨some ⟨some "PLAIN", some "s", some "Open"⟩, none, some "Blocks"⟩,
       ⟨some ⟨some "OTHER-9", some "s", some "Open"⟩, none, some "Blocks"⟩]
      "PROJ").2
      ⟨some ⟨some "PLAIN", some "s", some "Open"⟩, none, some "Blocks"⟩
      ⟨some "PLAIN", some "s", some "Open"⟩ rfl (by decide)⟩

/-- C3 counterexample: a link resolving to the key `"PLAIN"` (no
separator).  Its project prefix `""` differs from the current project key
`"PROJ"`, yet `get_issue_dependencies` keeps nothing — refuting "keeps the
link if and only if that prefix differs from the current project key". -/
theorem cross_team_c3_counterexample :
    get_issue_dependencies
        [⟨some ⟨some "PLAIN", some "s", some "Open"⟩, none, some "Blocks"⟩]
        "PROJ" = [] ∧
      linkedProjectOf "PLAIN" ≠ "PROJ" := by
  decide

/-- C3 (amended): each link resolves to `outwardIssue or inwardIssue`
(outward first, inward as fallback), and is kept iff its key's project
prefix is non-empty AND differs from the current project key; consequently
no returned dependency references the current project. -/
theorem cross_team_c3 (links : List IssueLink) (cur : String) :
    (∀ d ∈ get_issue_dependencies links cur, d.project ≠ cur ∧ d.project ≠ "") ∧
    (∀ link ∈ links, ∀ li, (link.outwardIssue <|> link.inwardIssue) = some li →
      linkedProjectOf (li.key.getD "") ≠ "" →
      linkedProjectOf (li.key.getD "") ≠ cur →
      mkDependency link li ∈ get_issue_dependencies links cur) := by
  constructor
  · intro d hd
    obtain ⟨link, _, hkeep⟩ := List.mem_filterMap.mp hd
    obtain ⟨li, _, h1, h2, rfl⟩ := keepLink_eq_some.mp hkeep
    exact ⟨h2, h1⟩
  · intro link hlink li hres hne hnecur
    exact List.mem_filterMap.mpr
      ⟨link, hlink, keepLink_eq_some.mpr ⟨li, hres, hne, hnecur, rfl⟩⟩

/-- Witness for C3 (amended) at a concrete link list: the cross-project
link `OTHER-9` is kept and references a different project. -/
theorem cross_team_c3_witness :
    ((⟨"OTHER-9", "OTHER", "Blocks", "s", "Open"⟩ : Dependency).project ≠ "PROJ" ∧
      (⟨"OTHER-9", "OTHER", "Blocks", "s", "Open"⟩ : Dependency).project ≠ "") ∧
    mkDependency ⟨some ⟨some "OTHER-9", some "s", some "Open"⟩, none, some "Blocks"⟩
        ⟨some "OTHER-9", some "s", some "Open"⟩ ∈
      get_issue_dependencies
        [⟨some ⟨some "OTHER-9", some "s", some "Open"⟩, none, some "Blocks"⟩]
        "PROJ" :=
  ⟨(cross_team_c3
      [⟨some ⟨some "OTHER-9", some "s", some "Open"⟩, none, some "Blocks"⟩]
      "PROJ").1 ⟨"OTHER-9", "OTHER", "Blocks", "s", "Open"⟩ (by decide),
    (cross_team_c3
      [⟨some ⟨some "OTHER-9", some "s", some "Open"⟩, none, some "Blocks"⟩]
      "PROJ").2
      ⟨some ⟨some "OTHER-9", some "s", some "Open"⟩, none, some "Blocks"⟩
      (List.mem_cons_self ..)
      ⟨some "OTHER-9", some "s", some "Open"⟩ rfl (by decide) (by decide)⟩

/-! ## C1: `get_issue_comments` -/

theorem listLtChars_trans : ∀ {a b c : List Char},
    listLtChars a b = true → listLtChars b c = true → listLtChars a c = true := by
  intro a
  induction a with
  | nil =>
    intro b c hab hbc
    cases b with
    | nil => simp [listLtChars] at hab
    | cons y ys =>
      cases c with
      | nil => simp [listLtChars] at hbc
      | cons z zs => simp [listLtChars]
  | cons x xs ih =>
    intro b c hab hbc
    cases b with
    | nil => simp [listLtChars] at hab
    | cons y ys =>
      cases c with
      | nil => simp [listLtChars] at hbc
      | cons z zs =>
        by_cases hxy : x < y
        · by_cases hyz : y < z
          · simp [listLtChars, lt_trans hxy hyz]
          · have hzy : ¬ z < y := by
              intro h
              simp [listLtChars, hyz, h] at hbc
            have heq : y = z := le_antisymm (not_lt.mp hzy) (not_lt.mp hyz)
            subst heq
            simp [listLtChars, hxy]
        · have hyx : ¬ y < x := by
            intro h
            simp [listLtChars, hxy, h] at hab
          have heq : x = y := le_antisymm (not_lt.mp hyx) (not_lt.mp hxy)
          subst heq
          have hxs : listLtChars xs ys = true := by
            simpa [listLtChars, lt_irrefl] using hab
          by_cases hyz : x < z
          · simp [listLtChars, hyz]
          · have hzy : ¬ z < x := by
              intro h
              simp [listLtChars, hyz, h] at hbc
            have heq2 : x = z := le_antisymm (not_lt.mp hzy) (not_lt.mp hyz)
            subst heq2
            have hys : listLtChars ys zs = true := by
              simpa [listLtChars, lt_irrefl] using hbc
            simp [listLtChars, lt_irrefl, ih hxs hys]

theorem listLtChars_trichotomy : ∀ (a b : List Char),
    listLtChars a b = true ∨ listLtChars b a = true ∨ a = b := by
  intro a
  induction a with
  | nil =>
    intro b
    cases b with
    | nil => right; right; rfl
    | cons y ys => left; simp [listLtChars]
  | cons x xs ih =>
    intro b
    cases b with
    | nil => right; left; simp [listLtChars]
    | cons y ys =>
      rcases lt_trichotomy x y with h | h | h
      · left; simp [listLtChars, h]
      · subst h
        rcases ih ys with h' | h' | h'
        · left; simp [listLtChars, lt_irrefl, h']
        · right; left; simp [listLtChars, lt_irrefl, h']
        · right; right; rw [h']
      · right; left; simp [listLtChars, h]

theorem strLt_trans {a b c : String} (h1 : strLt a b = true)
    (h2 : strLt b c = true) : strLt a c = true :=
  listLtChars_trans h1 h2

theorem strLt_trichotomy (a b : String) :
    strLt a b = true ∨ strLt b a = true ∨ a = b := by
  rcases listLtChars_trichotomy a.toList b.toList with h | h | h
  · left; exact h
  · right; left; exact h
  · right; right
    cases a
    cases b
    exact congrArg String.mk (by simpa using h)

theorem insertDescByCreated_ne_nil (x : CommentJ) (l : List CommentJ) :
    insertDescByCreated x l ≠ [] := by
  cases l with
  | nil => simp [insertDescByCreated]
  | cons y ys =>
    simp only [insertDescByCreated]
    by_cases h : strLt x.created y.created = true
    · rw [if_pos h]; simp
    · rw [if_neg h]; simp

theorem sortDescByCreated_eq_nil_iff (l : List CommentJ) :
    sortDescByCreated l = [] ↔ l = [] := by
  cases l with
  | nil => simp [sortDescByCreated]
  | cons x r =>
    simp only [sortDescByCreated, List.foldr_cons]
    constructor
    · intro h
      exact absurd h (insertDescByCreated_ne_nil x _)
    · intro h
      exact absurd h (by simp)

/-- The head of the stable descending sort is the first element, in
original order, whose creation string no later element exceeds: everything
before it in the input is strictly smaller, everything after is
`≤` (so it is the earliest maximum). -/
theorem sortDesc_head_stable_argmax :
    ∀ (l : List CommentJ) (c : CommentJ) (t : List CommentJ),
      sortDescByCreated l = c :: t →
      ∃ l1 l2, l = l1 ++ c :: l2 ∧
        (∀ d ∈ l1, strLt d.created c.created = true) ∧
        (∀ d ∈ l2, strLt c.created d.created = false) := by
  intro l
  induction l with
  | nil =>
    intro c t h
    simp [sortDescByCreated] at h
  | cons x rest ih =>
    intro c t h
    rw [show sortDescByCreated (x :: rest) =
        insertDescByCreated x (sortDescByCreated rest) from rfl] at h
    cases hrest : sortDescByCreated rest with
    | nil =>
      have hr : rest = [] := (sortDescByCreated_eq_nil_iff rest).mp hrest
      rw [hrest] at h
      simp only [insertDescByCreated] at h
      obtain ⟨rfl, rfl⟩ : x = c ∧ [] = t := by
        refine ⟨?_, ?_⟩ <;> injection h
      exact ⟨[], [], by simp [hr], by simp, by simp⟩
    | cons c' t' =>
      obtain ⟨l1', l2', hrest_eq, hbefore, hafter⟩ := ih c' t' hrest
      rw [hrest] at h
      simp only [insertDescByCreated] at h
      by_cases hlt : strLt x.created c'.created = true
      · rw [if_pos hlt] at h
        obtain ⟨rfl, _⟩ : c' = c ∧ insertDescByCreated x t' = t := by
          refine ⟨?_, ?_⟩ <;> injection h
        refine ⟨x :: l1', l2', by simp [hrest_eq], ?_, hafter⟩
        intro d hd
        rcases List.mem_cons.mp hd with rfl | hd'
        · exact hlt
        · exact hbefore d hd'
      · rw [if_neg hlt] at h
        obtain ⟨rfl, _⟩ : x = c ∧ c' :: t' = t := by
          refine ⟨?_, ?_⟩ <;> injection h
        have hxc' : strLt x.created c'.created = false := by
          cases hb : strLt x.created c'.created with
          | false => rfl
          | true => exact absurd hb hlt
        refine ⟨[], rest, rfl, by simp, ?_⟩
        intro d hd
        rw [hrest_eq] at hd
        cases hxd : strLt x.created d.created with
        | false => rfl
        | true =>
          exfalso
          rcases List.mem_append.mp hd with hd1 | hd2
          · have : strLt x.created c'.created = true :=
              strLt_trans hxd (hbefore d hd1)
            rw [hxc'] at this
            exact Bool.noConfusion this
          · rcases List.mem_cons.mp hd2 with rfl | hd3
            · rw [hxd] at hxc'
              exact Bool.noConfusion hxc'
            · rcases strLt_trichotomy d.created c'.created with ht | ht | ht
              · have : strLt x.created c'.created = true := strLt_trans hxd ht
                rw [hxc'] at this
                exact Bool.noConfusion this
              · have := hafter d hd3
                rw [ht] at this
                exact Bool.noConfusion this
              · rw [ht] at hxd
                rw [hxd] at hxc'
                exact Bool.noConfusion hxc'

/-- C1 (amended): `get_issue_comments` retains exactly the comments whose
creation string is present and parses to a timestamp `≥ cutoff` (missing
or malformed timestamps are skipped, not fatal); it returns `none` iff the
retained list is empty, and otherwise returns the first comment, in
original order, whose RAW creation string is lexicographically maximal
among the retained comments — the sort key is the raw string
`x.get("created", "")`, not the parsed timestamp, so this coincides with
the maximum parsed timestamp only when the retained creation strings are
formatted uniformly. -/
theorem most_recent_comment_c1 (comments : List CommentJ) (cutoff : Nat) :
    (∀ c ∈ comments, (commentIsRecent cutoff c = true ↔
      (c.created ≠ "" ∧ ∃ t, pyParseNaive c.created = some t ∧ cutoff ≤ t))) ∧
    (get_issue_comments comments cutoff = none ↔
      comments.filter (commentIsRecent cutoff) = []) ∧
    (∀ c, get_issue_comments comments cutoff = some c →
      ∃ l1 l2, comments.filter (commentIsRecent cutoff) = l1 ++ c :: l2 ∧
        (∀ d ∈ l1, strLt d.created c.created = true) ∧
        (∀ d ∈ l2, strLt c.created d.created = false)) := by
  refine ⟨?_, ?_, ?_⟩
  · intro c _
    unfold commentIsRecent
    by_cases hc : c.created = ""
    · simp [hc]
    · rw [if_neg hc]
      cases hp : pyParseNaive c.created with
      | none => simp [hc, hp]
      | some t => simp [hc, hp]
  · constructor
    · intro h
      cases hs : sortDescByCreated (comments.filter (commentIsRecent cutoff)) with
      | nil => exact (sortDescByCreated_eq_nil_iff _).mp hs
      | cons c0 t =>
        unfold get_issue_comments at h
        rw [hs] at h
        exact Option.noConfusion h
    · intro h
      unfold get_issue_comments
      rw [h]
      rfl
  · intro c hc
    unfold get_issue_comments at hc
    cases hs : sortDescByCreated (comments.filter (commentIsRecent cutoff)) with
    | nil =>
      rw [hs] at hc
      exact Option.noConfusion hc
    | cons c0 t =>
      rw [hs] at hc
      obtain rfl : c0 = c := Option.some_inj.mp hc
      exact sortDesc_head_stable_argmax _ c0 t hs

/-- The two comments of the C1 counterexample: the first has the
lexicographically larger raw creation string (`'Z' > '0'`), the second the
strictly larger parsed timestamp (`.500001 > .5` seconds). -/
def c1CexStringMax : CommentJ :=
  ⟨"2024-01-15T10:30:45.500Z", "alice", "string-max"⟩

def c1CexTimeMax : CommentJ :=
  ⟨"2024-01-15T10:30:45.500001+00:00", "bob", "time-max"⟩

/-- C1 counterexample: both comments are retained (cutoff 0), the second
has the strictly greater parsed creation timestamp, yet the function
returns the first — the sort is on the raw creation string, so the result
is NOT the comment with the maximum parsed creation timestamp. -/
theorem most_recent_comment_c1_counterexample :
    get_issue_comments [c1CexStringMax, c1CexTimeMax] 0 = some c1CexStringMax ∧
    c1CexStringMax ≠ c1CexTimeMax ∧
    commentIsRecent 0 c1CexTimeMax = true ∧
    pyParseNaive c1CexStringMax.created =
      some (encodeNaive 2024 1 15 10 30 45 500000) ∧
    pyParseNaive c1CexTimeMax.created =
      some (encodeNaive 2024 1 15 10 30 45 500001) ∧
    encodeNaive 2024 1 15 10 30 45 500000 <
      encodeNaive 2024 1 15 10 30 45 500001 := by
  refine ⟨by decide, by decide, by decide, by decide, by decide, by decide⟩

def c1ExampleT5 : CommentJ := ⟨"2024-01-10T09:00:00.000+0000", "a", "T-5"⟩

def c1ExampleT2 : CommentJ := ⟨"2024-01-13T09:00:00.000+0000", "b", "T-2"⟩

def c1ExampleT1 : CommentJ := ⟨"2024-01-14T09:00:00.000+0000", "c", "T-1"⟩

/-- Witness for C1 (amended) on the spec's own example: comments
timestamped `[T-5, T-2, T-1]` with cutoff `T-3` select the `T-1` comment
(first maximal string among the retained `[T-2, T-1]`), and an all-stale
list yields `none`. -/
theorem most_recent_comment_c1_witness :
    (∃ l1 l2,
      [c1ExampleT5, c1ExampleT2, c1ExampleT1].filter
          (commentIsRecent (encodeNaive 2024 1 12 9 0 0 0)) =
        l1 ++ c1ExampleT1 :: l2 ∧
        (∀ d ∈ l1, strLt d.created c1ExampleT1.created = true) ∧
        (∀ d ∈ l2, strLt c1ExampleT1.created d.created = false)) ∧
    get_issue_comments [c1ExampleT5] (encodeNaive 2024 1 12 9 0 0 0) = none :=
  ⟨(most_recent_comment_c1 [c1ExampleT5, c1ExampleT2, c1ExampleT1]
      (encodeNaive 2024 1 12 9 0 0 0)).2.2 c1ExampleT1 (by decide),
    ((most_recent_comment_c1 [c1ExampleT5]
      (encodeNaive 2024 1 12 9 0 0 0)).2.1).mpr (by decide)⟩

/-! ## C4: merge-request diff statistics -/

/-- Skipping `n` characters with the skip counter is dropping them. -/
theorem countSubAux_skip (p : List Char) :
    ∀ (l : List Char) (n : Nat), countSubAux p n l = countSubAux p 0 (l.drop n) := by
  intro l
  induction l with
  | nil => intro n; simp [countSubAux]
  | cons c rest ih =>
    intro n
    cases n with
    | zero => simp
    | succ s =>
      rw [show countSubAux p (s + 1) (c :: rest) = countSubAux p s rest from rfl,
        ih s]
      rfl

/-- The defining recurrence of Python `count` in `List.drop` form. -/
theorem countSub_cons (p : List Char) (c : Char) (rest : List Char) :
    countSub p (c :: rest) =
      if p ≠ [] && p.isPrefixOf (c :: rest) then
        1 + countSub p (rest.drop (p.length - 1))
      else countSub p rest := by
  show countSubAux p 0 (c :: rest) = _
  rw [show countSubAux p 0 (c :: rest) =
      if p ≠ [] && p.isPrefixOf (c :: rest) then
        1 + countSubAux p (p.length - 1) rest
      else countSubAux p 0 rest from rfl]
  rw [countSubAux_skip p rest (p.length - 1)]
  rfl

/-- The part of a character list after its first line. -/
def tailLines (l : List Char) : List (List Char) :=
  match l.dropWhile (fun c => c ≠ '\n') with
  | [] => []
  | _ :: t => splitLinesChars t

/-- A character list splits into its first line and the remaining lines. -/
theorem splitLinesChars_eq (l : List Char) :
    splitLinesChars l = l.takeWhile (fun c => c ≠ '\n') :: tailLines l := by
  induction l with
  | nil => rfl
  | cons c rest ih =>
    by_cases hc : c = '\n'
    · subst hc
      rw [show splitLinesChars ('\n' :: rest) = [] :: splitLinesChars rest from by
        simp [splitLinesChars, splitOnCharL]]
      rw [show ('\n' :: rest).takeWhile (fun c => c ≠ '\n') = [] from by
        simp [List.takeWhile_cons]]
      rw [show tailLines ('\n' :: rest) = splitLinesChars rest from by
        simp [tailLines, List.dropWhile_cons]]
    · have hsplit : splitLinesChars (c :: rest) =
          match splitLinesChars rest with
          | [] => [[c]]
          | l :: ls => (c :: l) :: ls := by
        simp [splitLinesChars, splitOnCharL, hc]
      rw [hsplit, ih]
      rw [show (c :: rest).takeWhile (fun c => c ≠ '\n') =
        c :: rest.takeWhile (fun c => c ≠ '\n') from by
          simp [List.takeWhile_cons, hc]]
      rw [show tailLines (c :: rest) = tailLines rest from by
        simp [tailLines, List.dropWhile_cons, hc]]

/-- Dropping characters inside the first line keeps the later lines. -/
theorem splitLinesChars_drop :
    ∀ (k : Nat) (l : List Char),
      k ≤ (l.takeWhile (fun c => c ≠ '\n')).length →
      splitLinesChars (l.drop k) =
        ((l.takeWhile (fun c => c ≠ '\n')).drop k) :: tailLines l := by
  intro k
  induction k with
  | zero =>
    intro l _
    simpa using splitLinesChars_eq l
  | succ k ih =>
    intro l hk
    cases l with
    | nil => simp at hk
    | cons c rest =>
      by_cases hc : c = '\n'
      · rw [show (c :: rest).takeWhile (fun c => c ≠ '\n') = [] from by
          simp [List.takeWhile_cons, hc]] at hk
        simp at hk
      · rw [show (c :: rest).takeWhile (fun c => c ≠ '\n') =
            c :: rest.takeWhile (fun c => c ≠ '\n') from by
              simp [List.takeWhile_cons, hc]] at hk ⊢
        rw [show (c :: rest).drop (k + 1) = rest.drop k from rfl]
        rw [show (c :: rest.takeWhile (fun c => c ≠ '\n')).drop (k + 1) =
          (rest.takeWhile (fun c => c ≠ '\n')).drop k from rfl]
        rw [show tailLines (c :: rest) = tailLines rest from by
          simp [tailLines, List.dropWhile_cons, hc]]
        exact ih rest (Nat.succ_le_succ_iff.mp hk)

/-- A newline-free pattern is a prefix of a list iff it is a prefix of the
list's first line. -/
theorem prefix_takeWhile_iff :
    ∀ (q rest : List Char), '\n' ∉ q →
      (q <+: rest ↔ q <+: rest.takeWhile (fun c => c ≠ '\n')) := by
  intro q
  induction q with
  | nil => intro rest _; simp
  | cons a q' ih =>
    intro rest hn
    have ha : a ≠ '\n' := by
      intro h
      exact hn (h ▸ List.mem_cons_self ..)
    constructor
    · intro h
      obtain ⟨t, ht⟩ := h
      rw [show (a :: q') ++ t = a :: (q' ++ t) from rfl] at ht
      subst ht
      rw [show (a :: (q' ++ t)).takeWhile (fun c => c ≠ '\n') =
        a :: (q' ++ t).takeWhile (fun c => c ≠ '\n') from by
          simp [List.takeWhile_cons, ha]]
      have hq' : q' <+: (q' ++ t).takeWhile (fun c => c ≠ '\n') :=
        (ih (q' ++ t) (fun hm => hn (List.mem_cons_of_mem _ hm))).mp ⟨t, rfl⟩
      exact List.cons_prefix_cons.mpr ⟨rfl, hq'⟩
    · intro h
      exact h.trans (List.takeWhile_prefix _)

/-- Python `count` of a newline-led pattern `"\n" ++ q` equals the number
of lines after the first that start with `q` (no line can hold two
occurrences, so non-overlapping counting is exact). -/
theorem countSub_newline_lines (q : List Char) (hn : '\n' ∉ q) :
    ∀ l, countSub ('\n' :: q) l =
      ((splitLinesChars l).drop 1).countP (fun ln => q.isPrefixOf ln) := by
  have main : ∀ (n : Nat) (l : List Char), l.length ≤ n →
      countSub ('\n' :: q) l =
        ((splitLinesChars l).drop 1).countP (fun ln => q.isPrefixOf ln) := by
    intro n
    induction n with
    | zero =>
      intro l hl
      obtain rfl : l = [] := List.length_eq_zero.mp (Nat.le_zero.mp hl)
      rfl
    | succ n ih =>
      intro l hl
      cases l with
      | nil => rfl
      | cons c rest =>
        by_cases hc : c = '\n'
        · subst hc
          rw [countSub_cons]
          have hpfx : ('\n' :: q).isPrefixOf ('\n' :: rest) = q.isPrefixOf rest := by
            rw [List.isPrefixOf_cons₂]
            simp
          rw [show splitLinesChars ('\n' :: rest) = [] :: splitLinesChars rest
            from by simp [splitLinesChars, splitOnCharL]]
          rw [List.drop_one, List.tail_cons]
          rw [splitLinesChars_eq rest, List.countP_cons]
          by_cases hpre : q.isPrefixOf rest = true
          · rw [hpfx, hpre]
            rw [if_pos (by simp)]
            have hfl : q <+: rest.takeWhile (fun c => c ≠ '\n') :=
              (prefix_takeWhile_iff q rest hn).mp
                (List.isPrefixOf_iff_prefix.mp hpre)
            have hflb : q.isPrefixOf (rest.takeWhile (fun c => c ≠ '\n')) = true :=
              List.isPrefixOf_iff_prefix.mpr hfl
            rw [hflb]
            have hqlen : q.length ≤ (rest.takeWhile (fun c => c ≠ '\n')).length :=
              hfl.length_le
            have hdrop := splitLinesChars_drop q.length rest hqlen
            have hrec : countSub ('\n' :: q) (rest.drop q.length) =
                ((splitLinesChars (rest.drop q.length)).drop 1).countP
                  (fun ln => q.isPrefixOf ln) := by
              apply ih
              have h1 : (rest.drop q.length).length ≤ rest.length :=
                by simp [List.length_drop]
              have h2 : rest.length ≤ n := Nat.succ_le_succ_iff.mp hl
              exact le_trans h1 h2
            rw [show ('\n' :: q).length - 1 = q.length from by simp]
            rw [hrec, hdrop, List.drop_one, List.tail_cons]
            simp [Nat.add_comm]
          · have hpre' : q.isPrefixOf rest = false := by
              cases hb : q.isPrefixOf rest with
              | false => rfl
              | true => exact absurd hb hpre
            rw [hpfx, hpre']
            rw [if_neg (by simp)]
            have hflb : q.isPrefixOf (rest.takeWhile (fun c => c ≠ '\n')) = false := by
              cases hb : q.isPrefixOf (rest.takeWhile (fun c => c ≠ '\n')) with
              | false => rfl
              | true =>
                exfalso
                apply hpre
                exact List.isPrefixOf_iff_prefix.mpr
                  ((prefix_takeWhile_iff q rest hn).mpr
                    (List.isPrefixOf_iff_prefix.mp hb))
            rw [hflb]
            have hrec : countSub ('\n' :: q) rest =
                ((splitLinesChars rest).drop 1).countP (fun ln => q.isPrefixOf ln) :=
              ih rest (Nat.succ_le_succ_iff.mp hl)
            rw [hrec, splitLinesChars_eq rest, List.drop_one, List.tail_cons]
            simp
        · rw [countSub_cons]
          have hpfx : ('\n' :: q).isPrefixOf (c :: rest) = false := by
            rw [List.isPrefixOf_cons₂]
            have hb : ('\n' == c) = false := by
              simp only [beq_eq_false_iff_ne, ne_eq]
              exact fun h => hc h.symm
            rw [hb, Bool.false_and]
          rw [hpfx]
          rw [if_neg (by simp)]
          have hrec : countSub ('\n' :: q) rest =
              ((splitLinesChars rest).drop 1).countP (fun ln => q.isPrefixOf ln) :=
            ih rest (Nat.succ_le_succ_iff.mp hl)
          rw [hrec]
          have hsplit : splitLinesChars (c :: rest) =
              match splitLinesChars rest with
              | [] => [[c]]
              | l :: ls => (c :: l) :: ls := by
            simp [splitLinesChars, splitOnCharL, hc]
          rw [hsplit, splitLinesChars_eq rest]
          rfl
  intro l
  exact main l.length l le_rfl

/-- The quantity named by the amended claim: the number of lines of the
diff, its first line excluded, that start with `pre`. -/
def tailLineCount (pre : List Char) (diff : String) : Nat :=
  ((splitLinesChars diff.toList).drop 1).countP (fun ln => pre.isPrefixOf ln)

/-- The quantity named by the ORIGINAL claim: the number of diff lines
(all of them) starting with `pre` but not with the `header` marker. -/
def claimLineCount (pre header : List Char) (diff : String) : Nat :=
  (splitLinesChars diff.toList).countP
    (fun ln => pre.isPrefixOf ln && !(header.isPrefixOf ln))

theorem diffAdded_lines (s : String) :
    diffAdded s =
      (tailLineCount ['+'] s : Int) - tailLineCount ['+', '+', '+'] s := by
  unfold diffAdded tailLineCount
  rw [show ("\n+".toList) = '\n' :: ['+'] from rfl]
  rw [show ("\n+++".toList) = '\n' :: ['+', '+', '+'] from rfl]
  rw [countSub_newline_lines ['+'] (by decide) s.toList]
  rw [countSub_newline_lines ['+', '+', '+'] (by decide) s.toList]

theorem diffRemoved_lines (s : String) :
    diffRemoved s =
      (tailLineCount ['-'] s : Int) - tailLineCount ['-', '-', '-'] s := by
  unfold diffRemoved tailLineCount
  rw [show ("\n-".toList) = '\n' :: ['-'] from rfl]
  rw [show ("\n---".toList) = '\n' :: ['-', '-', '-'] from rfl]
  rw [countSub_newline_lines ['-'] (by decide) s.toList]
  rw [countSub_newline_lines ['-', '-', '-'] (by decide) s.toList]

/-- C4 (amended): on a 200 merge-request response and a 200 changes
response, `get_gitlab_mr_stats` reports `files_changed` as the number of
change entries and computes `additions` (resp. `deletions`) per entry as
the number of NON-FIRST diff lines starting with `'+'` (resp. `'-'`) minus
the number of non-first lines starting with `'+++'` (resp. `'---'`) —
header or not — summed over the entries and clamped to non-negative.  A
marker on a diff's very first line is not counted (Python counts `"\n+"`
substrings).  The URL must extract to a truthy (non-empty) project path
and MR id, or the function stops at its guard before any fetch. -/
theorem mr_diff_stats_c4 (gitlab_url : String) (gitlab_token : Option String)
    (mrData : MrData) (changes : List ChangeEntry) (project_path mr_id : String)
    (hurl : extract_gitlab_mr_info gitlab_url = some (project_path, mr_id))
    (hp : project_path ≠ "") (hm : mr_id ≠ "") :
    ∃ st, get_gitlab_mr_stats gitlab_url gitlab_token
        (.ok (200, mrData)) (.ok (200, changes)) = .stats st ∧
      st.diffStats = some (changes.length,
        max 0 (changes.foldl (fun a c =>
          a + ((tailLineCount ['+'] (c.diff.getD "") : Int) -
            tailLineCount ['+', '+', '+'] (c.diff.getD ""))) 0),
        max 0 (changes.foldl (fun a c =>
          a + ((tailLineCount ['-'] (c.diff.getD "") : Int) -
            tailLineCount ['-', '-', '-'] (c.diff.getD ""))) 0)) := by
  unfold get_gitlab_mr_stats
  rw [hurl]
  dsimp only
  rw [if_neg (fun h => h.elim hp hm)]
  refine ⟨_, rfl, ?_⟩
  have hadd : (fun (a : Int) (c : ChangeEntry) => a + diffAdded (c.diff.getD "")) =
      fun (a : Int) (c : ChangeEntry) =>
        a + ((tailLineCount ['+'] (c.diff.getD "") : Int) -
          tailLineCount ['+', '+', '+'] (c.diff.getD "")) := by
    funext a c
    rw [diffAdded_lines]
  have hdel : (fun (a : Int) (c : ChangeEntry) => a + diffRemoved (c.diff.getD "")) =
      fun (a : Int) (c : ChangeEntry) =>
        a + ((tailLineCount ['-'] (c.diff.getD "") : Int) -
          tailLineCount ['-', '-', '-'] (c.diff.getD "")) := by
    funext a c
    rw [diffRemoved_lines]
  show some (changes.length,
      max 0 (changes.foldl (fun a c => a + diffAdded (c.diff.getD "")) 0),
      max 0 (changes.foldl (fun a c => a + diffRemoved (c.diff.getD "")) 0)) = _
  rw [hadd, hdel]

def mrDataNone : MrData :=
  ⟨none, none, none, none, none, none, none, none⟩

/-- The `diffStats` component of a stats result, if any. -/
def mrDiffStatsOf (r : MrStatsResult) : Option (Nat × Int × Int) :=
  match r with
  | .stats st => st.diffStats
  | _ => none

/-- C4 counterexample: a single change whose diff is the one line
`"+a\n"`.  That line starts with a literal `'+'` and is no `'+++'` header,
so the claim's count is 1, but the code computes `additions = 0`: the
`'+'` sits on the diff's first line, which `diff.count("\n+")` never
sees. -/
theorem mr_diff_stats_c4_counterexample :
    mrDiffStatsOf (get_gitlab_mr_stats
        "https://cd.splunkdev.com/g/p/-/merge_requests/7" none
        (.ok (200, mrDataNone)) (.ok (200, [⟨some "+a\n"⟩]))) =
      some (1, 0, 0) ∧
    claimLineCount ['+'] ['+', '+', '+'] "+a\n" = 1 ∧
    (0 : Int) ≠ (1 : Nat) := by
  refine ⟨by decide, by decide, by decide⟩

def c4DiffW : String :=
  "@@ -1 +1 @@\n--- a/file\n+++ b/file\n-removed line\n+added line\n"

/-- Witness for C4 (amended): on the spec's example block (one
`+++ b/file` header, one added line, one `--- a/file` header, one removed
line) the computed statistics are `files_changed = 1`, `additions = 1`,
`deletions = 1`. -/
theorem mr_diff_stats_c4_witness :
    ∃ st, get_gitlab_mr_stats "https://cd.splunkdev.com/g/p/-/merge_requests/7"
        none (.ok (200, mrDataNone)) (.ok (200, [⟨some c4DiffW⟩])) = .stats st ∧
      st.diffStats = some (1, 1, 1) := by
  obtain ⟨st, h1, h2⟩ := mr_diff_stats_c4
    "https://cd.splunkdev.com/g/p/-/merge_requests/7" none mrDataNone
    [⟨some c4DiffW⟩] "g/p" "7" (by decide) (by decide) (by decide)
  refine ⟨st, h1, ?_⟩
  rw [h2]
  decide

/-! ## C9 and C5: rich-text extraction -/

theorem exceptBind_ok {ε α β : Type} (a : α) (f : α → Except ε β) :
    (Except.ok a : Except ε α) >>= f = f a := rfl

theorem pyGet_obj (entries : List (String × JValue)) (k : String) (dflt : JValue) :
    pyGet (.obj entries) k dflt = .ok ((jlookup entries k).getD dflt) := rfl

theorem pyIter_arr (xs : List JValue) : pyIter (.arr xs) = .ok xs := rfl

theorem pyInStr_str (needle s : String) :
    pyInStr needle (.str s) = .ok (containsStr s needle) := rfl

/-- The `== "s"` test on a `.get(key)` result, written on the defaulted
value versus on the optional lookup. -/
theorem isStrVal_getD_null (o : Option JValue) (s : String) :
    isStrVal (o.getD .null) s = o.any (fun t => isStrVal t s) := by
  cases o <;> rfl
theorem exceptPure_ok {ε α : Type} (a : α) :
    (pure a : Except ε α) = .ok a := rfl

/-- A well-typed mark never makes the mark loop body raise. -/
theorem procMark_wt (st : ExtState) (m : JValue) (h : wtMark m = true) :
    ∃ st', procMark st m = .ok st' := by
  cases m with
  | obj entries =>
    rw [wtMark] at h
    simp only [procMark, pyGet_obj, exceptBind_ok]
    rw [isStrVal_getD_null]
    by_cases hlink : (jlookup entries "type").any (fun t => isStrVal t "link") = true
    · rw [if_pos hlink]
      rw [if_pos hlink] at h
      cases hattrs : jlookup entries "attrs" with
      | none =>
        simp only [Option.getD, pyGet_obj, exceptBind_ok]
        rw [show jlookup ([] : List (String × JValue)) "href" = none from rfl]
        simp only [Option.getD, pyInStr_str, exceptBind_ok]
        rw [show containsStr "" "cd.splunkdev.com" = false from rfl]
        exact ⟨st, by simp [exceptPure_ok]⟩
      | some av =>
        rw [hattrs] at h
        cases av with
        | obj aentries =>
          simp only [wtAttrs] at h
          simp only [Option.getD, pyGet_obj, exceptBind_ok]
          cases hhref : jlookup aentries "href" with
          | none =>
            simp only [Option.getD, pyInStr_str, exceptBind_ok]
            rw [show containsStr "" "cd.splunkdev.com" = false from rfl]
            exact ⟨st, by simp [exceptPure_ok]⟩
          | some hv =>
            rw [hhref] at h
            cases hv with
            | str s =>
              simp only [Option.getD, pyInStr_str, exceptBind_ok]
              by_cases hc1 : containsStr s "cd.splunkdev.com" = true
              · rw [if_pos hc1]
                by_cases hc2 : containsStr s "merge_requests" = true
                · rw [if_pos hc2]
                  exact ⟨_, rfl⟩
                · rw [if_neg hc2]
                  exact ⟨st, rfl⟩
              · rw [if_neg hc1]
                exact ⟨st, rfl⟩
            | null => exact absurd h (by simp [wtOptStr])
            | bool b => exact absurd h (by simp [wtOptStr])
            | num n => exact absurd h (by simp [wtOptStr])
            | arr xs => exact absurd h (by simp [wtOptStr])
            | obj o => exact absurd h (by simp [wtOptStr])
        | null => exact absurd h (by simp [wtAttrs])
        | bool b => exact absurd h (by simp [wtAttrs])
        | num n => exact absurd h (by simp [wtAttrs])
        | str s => exact absurd h (by simp [wtAttrs])
        | arr xs => exact absurd h (by simp [wtAttrs])
    · rw [if_neg hlink]
      exact ⟨st, rfl⟩
  | null => exact absurd h (by simp [wtMark])
  | bool b => exact absurd h (by simp [wtMark])
  | num n => exact absurd h (by simp [wtMark])
  | str s => exact absurd h (by simp [wtMark])
  | arr xs => exact absurd h (by simp [wtMark])

theorem foldlM_procMark_wt :
    ∀ (ms : List JValue) (st : ExtState), ms.all wtMark = true →
      ∃ st', ms.foldlM procMark st = .ok st' := by
  intro ms
  induction ms with
  | nil => intro st _; exact ⟨st, rfl⟩
  | cons m rest ih =>
    intro st h
    rw [List.all_cons, Bool.and_eq_true] at h
    obtain ⟨st1, h1⟩ := procMark_wt st m h.1
    obtain ⟨st2, h2⟩ := ih st1 h.2
    exact ⟨st2, by rw [List.foldlM_cons, h1, exceptBind_ok, h2]⟩

/-- A well-typed text node never makes the node loop body raise. -/
theorem procTextNode_wt (st : ExtState) (n : JValue) (h : wtTextNode n = true) :
    ∃ st', procTextNode st n = .ok st' := by
  cases n with
  | obj entries =>
    rw [wtTextNode] at h
    simp only [procTextNode, pyGet_obj, exceptBind_ok]
    rw [isStrVal_getD_null]
    by_cases htext : (jlookup entries "type").any (fun t => isStrVal t "text") = true
    · rw [if_pos htext]
      rw [if_pos htext, Bool.and_eq_true] at h
      obtain ⟨htx, hmk⟩ := h
      have hstr : ∃ s, (jlookup entries "text").getD (.str "") = .str s := by
        cases hl : jlookup entries "text" with
        | none => exact ⟨"", rfl⟩
        | some tv =>
          rw [hl] at htx
          cases tv with
          | str s => exact ⟨s, rfl⟩
          | null => exact absurd htx (by simp [wtOptStr])
          | bool b => exact absurd htx (by simp [wtOptStr])
          | num n => exact absurd htx (by simp [wtOptStr])
          | arr xs => exact absurd htx (by simp [wtOptStr])
          | obj o => exact absurd htx (by simp [wtOptStr])
      obtain ⟨s, hs⟩ := hstr
      rw [hs]
      cases hmarks : jlookup entries "marks" with
      | none =>
        simp only [Option.getD, pyIter_arr, exceptBind_ok]
        exact ⟨_, rfl⟩
      | some mv =>
        rw [hmarks] at hmk
        cases mv with
        | arr ms =>
          simp only [wtOptArrAll] at hmk
          simp only [Option.getD, pyIter_arr, exceptBind_ok]
          exact foldlM_procMark_wt ms _ hmk
        | null => exact absurd hmk (by simp [wtOptArrAll])
        | bool b => exact absurd hmk (by simp [wtOptArrAll])
        | num n => exact absurd hmk (by simp [wtOptArrAll])
        | str s2 => exact absurd hmk (by simp [wtOptArrAll])
        | obj o => exact absurd hmk (by simp [wtOptArrAll])
    · rw [if_neg htext]
      exact ⟨st, rfl⟩
  | null => exact absurd h (by simp [wtTextNode])
  | bool b => exact absurd h (by simp [wtTextNode])
  | num n => exact absurd h (by simp [wtTextNode])
  | str s => exact absurd h (by simp [wtTextNode])
  | arr xs => exact absurd h (by simp [wtTextNode])

theorem foldlM_procTextNode_wt :
    ∀ (ns : List JValue) (st : ExtState), ns.all wtTextNode = true →
      ∃ st', ns.foldlM procTextNode st = .ok st' := by
  intro ns
  induction ns with
  | nil => intro st _; exact ⟨st, rfl⟩
  | cons n rest ih =>
    intro st h
    rw [List.all_cons, Bool.and_eq_true] at h
    obtain ⟨st1, h1⟩ := procTextNode_wt st n h.1
    obtain ⟨st2, h2⟩ := ih st1 h.2
    exact ⟨st2, by rw [List.foldlM_cons, h1, exceptBind_ok, h2]⟩

/-- A well-typed block never makes the block loop body raise. -/
theorem procBlock_wt (st : ExtState) (b : JValue) (h : wtBlock b = true) :
    ∃ st', procBlock st b = .ok st' := by
  cases b with
  | obj entries =>
    rw [wtBlock] at h
    simp only [procBlock, pyGet_obj, exceptBind_ok]
    rw [isStrVal_getD_null]
    by_cases hpara : (jlookup entries "type").any (fun t => isStrVal t "paragraph") = true
    · rw [if_pos hpara]
      rw [if_pos hpara] at h
      cases hcontent : jlookup entries "content" with
      | none =>
        simp only [Option.getD, pyIter_arr, exceptBind_ok]
        exact ⟨st, rfl⟩
      | some cv =>
        rw [hcontent] at h
        cases cv with
        | arr ns =>
          simp only [wtOptArrAll] at h
          simp only [Option.getD, pyIter_arr, exceptBind_ok]
          exact foldlM_procTextNode_wt ns st h
        | null => exact absurd h (by simp [wtOptArrAll])
        | bool b2 => exact absurd h (by simp [wtOptArrAll])
        | num n => exact absurd h (by simp [wtOptArrAll])
        | str s => exact absurd h (by simp [wtOptArrAll])
        | obj o => exact absurd h (by simp [wtOptArrAll])
    · rw [if_neg hpara]
      exact ⟨st, rfl⟩
  | null => exact absurd h (by simp [wtBlock])
  | bool b2 => exact absurd h (by simp [wtBlock])
  | num n => exact absurd h (by simp [wtBlock])
  | str s => exact absurd h (by simp [wtBlock])
  | arr xs => exact absurd h (by simp [wtBlock])

theorem foldlM_procBlock_wt :
    ∀ (bs : List JValue) (st : ExtState), bs.all wtBlock = true →
      ∃ st', bs.foldlM procBlock st = .ok st' := by
  intro bs
  induction bs with
  | nil => intro st _; exact ⟨st, rfl⟩
  | cons b rest ih =>
    intro st h
    rw [List.all_cons, Bool.and_eq_true] at h
    obtain ⟨st1, h1⟩ := procBlock_wt st b h.1
    obtain ⟨st2, h2⟩ := ih st1 h.2
    exact ⟨st2, by rw [List.foldlM_cons, h1, exceptBind_ok, h2]⟩

/-- C9 (amended): the rich-text extraction treats every missing nested
field (`content`, `type`, `text`, `marks`, `attrs`, `href`) as
absent/empty and raises on no comment body whose PRESENT fields are
well-typed; a plain-string body is returned unchanged with no embedded
link.  (A body with a present but wrong-typed field — e.g. a non-list
`"content"` — does raise, so the guarantee needs the well-typedness
proviso.) -/
theorem rich_text_c9 (body : JValue) :
    (wellTypedBody body = true → extractionRaises body = false) ∧
    (∀ s : String, extractCommentBody (.str s) = .ok (s, none)) := by
  refine ⟨?_, fun s => rfl⟩
  intro h
  cases body with
  | obj entries =>
    rw [wellTypedBody] at h
    unfold extractionRaises
    rw [show extractCommentBody (.obj entries) =
        (pyGet (.obj entries) "content" (.arr []) >>= fun contentV =>
          pyIter contentV >>= fun blocks =>
          blocks.foldlM procBlock ⟨"", none⟩ >>= fun st =>
          pure (st.text, st.url)) from rfl]
    rw [pyGet_obj, exceptBind_ok]
    cases hcontent : jlookup entries "content" with
    | none => rfl
    | some cv =>
      rw [hcontent] at h
      cases cv with
      | arr bs =>
        simp only [wtOptArrAll] at h
        simp only [Option.getD, pyIter_arr, exceptBind_ok]
        obtain ⟨st, hst⟩ := foldlM_procBlock_wt bs ⟨"", none⟩ h
        rw [hst, exceptBind_ok]
        rfl
      | null => exact absurd h (by simp [wtOptArrAll])
      | bool b => exact absurd h (by simp [wtOptArrAll])
      | num n => exact absurd h (by simp [wtOptArrAll])
      | str s => exact absurd h (by simp [wtOptArrAll])
      | obj o => exact absurd h (by simp [wtOptArrAll])
  | null => rfl
  | bool b => rfl
  | num n => rfl
  | str s => rfl
  | arr xs => rfl

/-- C9 counterexample: the body `{"content": 5}` has no missing field,
yet iterating the number raises `TypeError` in Python — refuting "the
extraction never raises on any comment body". -/
theorem rich_text_c9_counterexample :
    extractionRaises (JValue.obj [("content", JValue.num 5)]) = true ∧
    extractCommentBody (JValue.obj [("content", JValue.num 5)]) =
      .error "TypeError" := ⟨rfl, rfl⟩

def c9BodyW : JValue :=
  .obj [("type", .str "doc"),
        ("content", .arr
          [.obj [("type", .str "paragraph"),
                 ("content", .arr
                   [.obj [("type", .str "text"), ("text", .str "hello")],
                    .obj [("type", .str "text")]])]])]

/-- Witness for C9 (amended): a document whose second text node has no
`text`, `marks`, `attrs` or `href` extracts without raising, and a plain
string comes back unchanged. -/
theorem rich_text_c9_witness :
    extractionRaises c9BodyW = false ∧
    extractCommentBody (.str "plain comment") = .ok ("plain comment", none) :=
  ⟨(rich_text_c9 c9BodyW).1 (by decide), (rich_text_c9 c9BodyW).2 "plain comment"⟩

/-- A paragraph holding one empty text node marked with one link to `u`. -/
def mkLinkPara (u : String) : JValue :=
  .obj [("type", .str "paragraph"),
        ("content", .arr
          [.obj [("type", .str "text"), ("text", .str ""),
                 ("marks", .arr
                   [.obj [("type", .str "link"),
                          ("attrs", .obj [("href", .str u)])]])]])]

/-- An ADF document body with the given top-level blocks. -/
def mkAdfBody (blocks : List JValue) : JValue :=
  .obj [("type", .str "doc"), ("content", .arr blocks)]

/-- Processing a link-only paragraph overwrites the recorded URL,
whatever the incoming state held. -/
theorem procBlock_mkLinkPara (st : ExtState) (u : String)
    (h1 : containsStr u "cd.splunkdev.com" = true)
    (h2 : containsStr u "merge_requests" = true) :
    procBlock st (mkLinkPara u) = .ok ⟨st.text, some (.str u)⟩ := by
  simp +decide only [procBlock, procTextNode, procMark, mkLinkPara, pyGet,
    pyIter, pyInStr, jlookup, isStrVal, List.find?, List.foldlM_cons,
    List.foldlM_nil, Option.getD, Option.map, exceptBind_ok, exceptPure_ok,
    decide_True, decide_False, h1, h2]
  simp
  rfl

/-- C5 (amended): the extraction records the LAST hyperlink target
encountered (iterating blocks, text nodes and marks in document order)
that contains the source-control host string and the merge-request
indicator as substrings — each later match overwrites the previous one:
appending a matching hyperlink to any document that extracts successfully
makes that hyperlink the result. -/
theorem link_extraction_c5 (blocks : List JValue) (u : String)
    (h1 : containsStr u "cd.splunkdev.com" = true)
    (h2 : containsStr u "merge_requests" = true)
    (t : String) (lnk : Option JValue)
    (hok : extractCommentBody (mkAdfBody blocks) = .ok (t, lnk)) :
    extractCommentBody (mkAdfBody (blocks ++ [mkLinkPara u])) =
      .ok (t, some (.str u)) := by
  have hbody : ∀ bs : List JValue, extractCommentBody (mkAdfBody bs) =
      (bs.foldlM procBlock ⟨"", none⟩) >>= fun st => pure (st.text, st.url) :=
    fun bs => rfl
  rw [hbody] at hok
  rw [hbody, List.foldlM_append]
  cases hfold : blocks.foldlM procBlock (⟨"", none⟩ : ExtState) with
  | error e =>
    rw [hfold] at hok
    exact Except.noConfusion
      (show (Except.error e : Except String (String × Option JValue)) =
        .ok (t, lnk) from hok)
  | ok st0 =>
    rw [hfold] at hok
    have hpair : (st0.text, st0.url) = (t, lnk) :=
      Except.ok.inj (show (Except.ok (st0.text, st0.url) :
        Except String (String × Option JValue)) = .ok (t, lnk) from hok)
    have htext : st0.text = t := congrArg Prod.fst hpair
    have hproc := procBlock_mkLinkPara st0 u h1 h2
    show ([mkLinkPara u].foldlM procBlock st0) >>=
      (fun st => pure (st.text, st.url)) = Except.ok (t, some (.str u))
    rw [List.foldlM_cons, hproc, htext]
    rfl

def c5Url1 : String := "https://cd.splunkdev.com/a/-/merge_requests/1"

def c5Url2 : String := "https://evil.example/x?cd.splunkdev.com&merge_requests"

def c5Doc : JValue := mkAdfBody [mkLinkPara c5Url1, mkLinkPara c5Url2]

/-- C5 counterexample: the document carries two hyperlinks.  The FIRST is
a genuine source-control merge-request URL (its host is the configured
host and its path contains the indicator); the SECOND merely contains both
strings as substrings of its query, its host being `evil.example`.  The
claim says the first is returned and later matches do not replace it; the
code returns the second: every later substring match overwrites the
recorded URL. -/
theorem link_extraction_c5_counterexample :
    extractedUrlStr c5Doc = some c5Url2 ∧
    c5Url2 ≠ c5Url1 ∧
    containsStr c5Url1 "cd.splunkdev.com" = true ∧
    containsStr c5Url1 "merge_requests" = true :=
  ⟨by decide, by decide, by decide, by decide⟩

/-- Witness for C5 (amended): appending a second matching link to a
one-link document makes the second link the extracted URL. -/
theorem link_extraction_c5_witness :
    extractCommentBody
        (mkAdfBody ([mkLinkPara "https://cd.splunkdev.com/a/-/merge_requests/1"] ++
          [mkLinkPara "https://cd.splunkdev.com/b/-/merge_requests/2"])) =
      .ok ("", some (.str "https://cd.splunkdev.com/b/-/merge_requests/2")) :=
  link_extraction_c5 [mkLinkPara "https://cd.splunkdev.com/a/-/merge_requests/1"]
    "https://cd.splunkdev.com/b/-/merge_requests/2" (by decide) (by decide)
    "" (some (.str "https://cd.splunkdev.com/a/-/merge_requests/1")) (by rfl)

/-! ## C8: merge-request statistics error mapping -/

/-- C8: for every merge-request stats fetch on a URL extracting a truthy
(non-empty) project path and MR id — otherwise the code stops at its
guard before any fetch — `get_gitlab_mr_stats` maps each failure to its
explicit reason — 401 to
authentication-required, 404 without a token to token-required, 404 with a
token to not-found, any other non-200 status to an API-error reason
carrying the status, and a connection failure to an unreachable reason —
the reasons are pairwise distinct, and whenever such a reason is produced
`format_gitlab_mr_with_stats` returns the non-enriched basic format.
(Every failure path of the Python function returns a value rather than
propagating an exception; the embedding is accordingly total.) -/
theorem mr_stats_errors_c8 (gitlab_url : String) (gitlab_token : Option String)
    (fetchMr : Except Unit (Nat × MrData))
    (fetchChanges : Except Unit (Nat × List ChangeEntry))
    (project_path mr_id : String)
    (hurl : extract_gitlab_mr_info gitlab_url = some (project_path, mr_id))
    (hp : project_path ≠ "") (hm : mr_id ≠ "") :
    (∀ d, fetchMr = .ok (401, d) →
      get_gitlab_mr_stats gitlab_url gitlab_token fetchMr fetchChanges =
        .apiError "GitLab API authentication required") ∧
    (∀ d, fetchMr = .ok (404, d) → gitlab_token = none →
      get_gitlab_mr_stats gitlab_url gitlab_token fetchMr fetchChanges =
        .apiError "GitLab token required for MR statistics") ∧
    (∀ d tk, fetchMr = .ok (404, d) → gitlab_token = some tk →
      get_gitlab_mr_stats gitlab_url gitlab_token fetchMr fetchChanges =
        .apiError "MR not found") ∧
    (∀ s d, fetchMr = .ok (s, d) → s ≠ 200 → s ≠ 401 → s ≠ 404 →
      get_gitlab_mr_stats gitlab_url gitlab_token fetchMr fetchChanges =
        .apiError ("GitLab API error: " ++ toString s)) ∧
    (fetchMr = .error () →
      get_gitlab_mr_stats gitlab_url gitlab_token fetchMr fetchChanges =
        .apiError "Failed to connect to GitLab API") ∧
    (∀ r, get_gitlab_mr_stats gitlab_url gitlab_token fetchMr fetchChanges =
        .apiError r →
      ∀ text author,
        format_gitlab_mr_with_stats text author (some gitlab_url) gitlab_token
          fetchMr fetchChanges =
          format_gitlab_mr_comment text author (some gitlab_url)) ∧
    List.Pairwise (fun a b => a ≠ b)
      ["GitLab API authentication required",
       "GitLab token required for MR statistics", "MR not found",
       "Failed to connect to GitLab API"] ∧
    (∀ s : Nat, "GitLab API error: " ++ toString s ∉
      ["GitLab API authentication required",
       "GitLab token required for MR statistics", "MR not found",
       "Failed to connect to GitLab API"]) := by
  refine ⟨?_, ?_, ?_, ?_, ?_, ?_, by decide, ?_⟩
  · intro d hmr
    subst hmr
    simp [get_gitlab_mr_stats, hurl, hp, hm]
  · intro d hmr htok
    subst hmr
    subst htok
    simp [get_gitlab_mr_stats, hurl, hp, hm]
  · intro d tk hmr htok
    subst hmr
    subst htok
    simp [get_gitlab_mr_stats, hurl, hp, hm]
  · intro s d hmr h200 h401 h404
    subst hmr
    simp [get_gitlab_mr_stats, hurl, hp, hm, h200, h401, h404]
  · intro hmr
    subst hmr
    simp [get_gitlab_mr_stats, hurl, hp, hm]
  · intro r hr text author
    unfold format_gitlab_mr_with_stats
    cases hbasic : format_gitlab_mr_comment text author (some gitlab_url) with
    | none => rfl
    | some b =>
      dsimp only
      rw [hr]
  · intro s hmem
    have hchars : ∀ t : String,
        ("GitLab API error: " ++ t).toList =
          "GitLab API error: ".toList ++ t.toList :=
      fun t => rfl
    have hp : "GitLab API error: ".toList <+:
        ("GitLab API error: " ++ toString s).toList :=
      ⟨(toString s).toList, (hchars (toString s)).symm⟩
    simp only [List.mem_cons, List.not_mem_nil, or_false] at hmem
    rcases hmem with h | h | h | h
    all_goals rw [h] at hp
    all_goals exact absurd hp (by decide)

/-- Witness for C8: a 401 response on a parsable URL yields the
authentication-required reason, and the formatter then degrades to the
basic format. -/
theorem mr_stats_errors_c8_witness :
    get_gitlab_mr_stats "https://cd.splunkdev.com/g/p/-/merge_requests/9"
        none (.ok (401, mrDataNone)) (.ok (200, [])) =
      .apiError "GitLab API authentication required" ∧
    format_gitlab_mr_with_stats "a merge request of p on branch b: x"
        "jira-gitlab bot" (some "https://cd.splunkdev.com/g/p/-/merge_requests/9")
        none (.ok (401, mrDataNone)) (.ok (200, [])) =
      format_gitlab_mr_comment "a merge request of p on branch b: x"
        "jira-gitlab bot" (some "https://cd.splunkdev.com/g/p/-/merge_requests/9") :=
  ⟨(mr_stats_errors_c8 "https://cd.splunkdev.com/g/p/-/merge_requests/9" none
      (.ok (401, mrDataNone)) (.ok (200, [])) "g/p" "9" (by decide) (by decide)
      (by decide)).1
      mrDataNone rfl,
    (mr_stats_errors_c8 "https://cd.splunkdev.com/g/p/-/merge_requests/9" none
      (.ok (401, mrDataNone)) (.ok (200, [])) "g/p" "9" (by decide) (by decide)
      (by decide)).2.2.2.2.2.1
      "GitLab API authentication required"
      ((mr_stats_errors_c8 "https://cd.splunkdev.com/g/p/-/merge_requests/9" none
        (.ok (401, mrDataNone)) (.ok (200, [])) "g/p" "9" (by decide) (by decide)
      (by decide)).1
        mrDataNone rfl)
      "a merge request of p on branch b: x" "jira-gitlab bot"⟩

end StandupNotes
